import Mathlib

/-!
Verification of the Lumen daily-edition publishing application.

The development shallowly embeds the application's core routes:

* the IST timezone normalizer (`src/lib/ist-utils.ts`), modelled over instants in
  milliseconds with the standard proleptic-Gregorian civil-calendar conversions
  used by ECMAScript `Date` (the server is assumed to run in UTC, so
  `toLocaleString("en-US", {timeZone : "Asia/Kolkata"})` followed by re-parsing
  amounts to shifting the instant by +05:30);
* the publish workflow (`src/app/api/publish/route.ts`) over an explicit list of
  stored editions standing for the MongoDB collection;
* the seven content-adapter routes over a small JSON value type;
* the comic scraper (`src/app/api/comic/route.ts`) over parsed JSON-LD blocks;
* login and the admin guard (`src/app/api/auth/login/route.ts`,
  `verifyAdminAccess`);
* the calendar and latest-date read routes.
-/

/-! ## Civil calendar arithmetic

`daysFromCivil` / `civilFromDays` convert between a proleptic-Gregorian date and
a count of days since 1970-01-01.  They model the date arithmetic that
ECMAScript `Date` semantics (MakeDay / YearFromTime / MonthFromTime) perform:
`daysFromCivil` is the shifted-year formula (equal to ECMA MakeDay, including
its linear out-of-range extrapolation in `d`), and `civilFromDays` decomposes a
day count into centuries / quadrennia / years of the 400-year Gregorian cycle. -/

def daysFromCivil (y m d : Int) : Int :=
  let y' := y - (if m ≤ 2 then 1 else 0)
  let era := y' / 400
  let yoe := y' - era * 400
  let doy := (153 * (m + (if m > 2 then -3 else 9)) + 2) / 5 + d - 1
  let doe := yoe * 365 + yoe / 4 - yoe / 100 + doy
  era * 146097 + doe - 719468

def civilFromDays (z : Int) : Int × Int × Int :=
  let z' := z + 719468
  let era := z' / 146097
  let doe := z' - era * 146097
  let c := if doe / 36524 > 3 then 3 else doe / 36524
  let r1 := doe - 36524 * c
  let q := r1 / 1461
  let r2 := r1 - 1461 * q
  let yl := if r2 / 365 > 3 then 3 else r2 / 365
  let doy := r2 - 365 * yl
  let yoe := 100 * c + 4 * q + yl
  let mp := (5 * doy + 2) / 153
  let d := doy - (153 * mp + 2) / 5 + 1
  let m := mp + (if mp < 10 then 3 else -9)
  (yoe + era * 400 + (if m ≤ 2 then 1 else 0), m, d)

/-- Leap year in the proleptic Gregorian calendar. -/
def isLeap (y : Int) : Bool := y % 4 = 0 && (y % 100 ≠ 0 || y % 400 = 0)

/-- Number of days in month `m` of year `y`; this is what the JavaScript
expression `new Date(year, month, 0).getDate()` computes. -/
def daysInMonth (y m : Int) : Int :=
  if m = 2 then (if isLeap y then 29 else 28)
  else if m = 4 ∨ m = 6 ∨ m = 9 ∨ m = 11 then 30
  else 31

theorem isLeap_iff (y : Int) :
    isLeap y = true ↔ (y % 4 = 0 ∧ (y % 100 ≠ 0 ∨ y % 400 = 0)) := by
  simp [isLeap]

theorem daysFromCivil_core (z era doe c r1 q r2 yl doy yoe mp d m : Int)
    (hera : era = (z + 719468) / 146097)
    (hdoe : doe = z + 719468 - era * 146097)
    (hc : c = if doe / 36524 > 3 then 3 else doe / 36524)
    (hr1 : r1 = doe - 36524 * c)
    (hq : q = r1 / 1461)
    (hr2 : r2 = r1 - 1461 * q)
    (hyl : yl = if r2 / 365 > 3 then 3 else r2 / 365)
    (hdoy : doy = r2 - 365 * yl)
    (hyoe : yoe = 100 * c + 4 * q + yl)
    (hmp : mp = (5 * doy + 2) / 153)
    (hd : d = doy - (153 * mp + 2) / 5 + 1)
    (hm : m = mp + (if mp < 10 then 3 else -9)) :
    daysFromCivil (yoe + era * 400 + (if m ≤ 2 then 1 else 0)) m d = z := by
  have hdoeb : 0 ≤ doe ∧ doe ≤ 146096 := by omega
  have hcb : (0 ≤ c ∧ c ≤ 3) ∧ 0 ≤ r1 ∧ r1 ≤ 36524 := by
    split at hc <;> omega
  have hqb : (0 ≤ q ∧ q ≤ 24) ∧ 0 ≤ r2 ∧ r2 ≤ 1460 := by omega
  have hylb : (0 ≤ yl ∧ yl ≤ 3) ∧ 0 ≤ doy ∧ doy ≤ 365 := by
    split at hyl <;> omega
  have hyoeb : 0 ≤ yoe ∧ yoe ≤ 399 := by omega
  have hera2 : (yoe + era * 400) / 400 = era := by omega
  have hq4 : yoe / 4 = 25 * c + q := by omega
  have hq100 : yoe / 100 = c := by omega
  have hsum : 365 * yoe + yoe / 4 - yoe / 100 + doy = doe := by omega
  have hmpb : 0 ≤ mp ∧ mp ≤ 11 := by omega
  unfold daysFromCivil
  by_cases h10 : mp < 10
  · have hm' : m = mp + 3 := by simp only [if_pos h10] at hm; omega
    have h1 : ¬ (m ≤ 2) := by omega
    have h2 : m > 2 := by omega
    simp only [if_neg h1, if_pos h2]
    rw [show yoe + era * 400 + 0 - 0 = yoe + era * 400 from by ring, hera2,
      show yoe + era * 400 - era * 400 = yoe from by ring, hq4, hq100,
      show m + -3 = mp from by omega]
    omega
  · have hm' : m = mp - 9 := by simp only [if_neg h10] at hm; omega
    have h1 : m ≤ 2 := by omega
    have h2 : ¬ (m > 2) := by omega
    simp only [if_pos h1, if_neg h2]
    rw [show yoe + era * 400 + 1 - 1 = yoe + era * 400 from by ring, hera2,
      show yoe + era * 400 - era * 400 = yoe from by ring, hq4, hq100,
      show m + 9 = mp from by omega]
    omega

/-- `daysFromCivil` is a left inverse of `civilFromDays`. -/
theorem days_civil_roundtrip (z : Int) :
    daysFromCivil (civilFromDays z).1 (civilFromDays z).2.1 (civilFromDays z).2.2 = z := by
  exact daysFromCivil_core z _ _ _ _ _ _ _ _ _ _ _ _
    rfl rfl rfl rfl rfl rfl rfl rfl rfl rfl rfl rfl

theorem civilFromDays_core (y m d y2 era yoe doy doe z : Int)
    (hm : 1 ≤ m ∧ m ≤ 12) (hd : 1 ≤ d ∧ d ≤ daysInMonth y m)
    (hy2 : y2 = y - (if m ≤ 2 then 1 else 0))
    (hera : era = y2 / 400)
    (hyoe : yoe = y2 - era * 400)
    (hdoy : doy = (153 * (m + (if m > 2 then -3 else 9)) + 2) / 5 + d - 1)
    (hdoe : doe = yoe * 365 + yoe / 4 - yoe / 100 + doy)
    (hz : z = era * 146097 + doe - 719468) :
    civilFromDays z = (y, m, d) := by
  obtain ⟨hm1, hm12⟩ := hm
  obtain ⟨hd1, hd2⟩ := hd
  have hdarith : (m = 2 → ((y % 4 = 0 ∧ (y % 100 ≠ 0 ∨ y % 400 = 0)) ∧ d ≤ 29) ∨
        (¬(y % 4 = 0 ∧ (y % 100 ≠ 0 ∨ y % 400 = 0)) ∧ d ≤ 28)) ∧
      ((m = 4 ∨ m = 6 ∨ m = 9 ∨ m = 11) → d ≤ 30) ∧ d ≤ 31 := by
    unfold daysInMonth at hd2
    refine ⟨?_, ?_, ?_⟩
    · intro h2
      rw [if_pos h2] at hd2
      cases hL : isLeap y with
      | true =>
        rw [hL] at hd2
        exact Or.inl ⟨(isLeap_iff y).mp hL, by simpa using hd2⟩
      | false =>
        rw [hL] at hd2
        refine Or.inr ⟨fun hA => ?_, by simpa using hd2⟩
        rw [(isLeap_iff y).mpr hA] at hL
        exact absurd hL (by simp)
    · intro h4
      rw [if_neg (by omega), if_pos h4] at hd2
      omega
    · split at hd2
      · split at hd2 <;> omega
      · split at hd2 <;> omega
  have hcomb : (5 * doy + 2) / 153 = m + (if m > 2 then -3 else 9) ∧
      (0 ≤ doy ∧ doy ≤ 365) ∧ (doy = 365 → m = 2 ∧ d = 29) := by
    rcases Int.lt_or_le 2 m with h2 | h2
    · rw [if_pos h2] at hdoy ⊢
      interval_cases m <;> omega
    · rw [if_neg (by omega)] at hdoy ⊢
      interval_cases m <;> omega
  obtain ⟨hmptab, hdoyb, hdoy365⟩ := hcomb
  have hyoeb : 0 ≤ yoe ∧ yoe ≤ 399 := by omega
  obtain ⟨cc, qq, yy, hsplit, hccb, hqqb, hyyb⟩ :
      ∃ cc qq yy, yoe = 100 * cc + 4 * qq + yy ∧ (0 ≤ cc ∧ cc ≤ 3) ∧
        (0 ≤ qq ∧ qq ≤ 24) ∧ (0 ≤ yy ∧ yy ≤ 3) := by
    refine ⟨yoe / 100, yoe % 100 / 4, yoe % 4, by omega, by omega, by omega, by omega⟩
  have hf : yoe * 365 + yoe / 4 - yoe / 100 = 36524 * cc + 1461 * qq + 365 * yy := by omega
  have hleapc : doy = 365 → yy = 3 ∧ (qq ≠ 24 ∨ cc = 3) := by
    intro h365
    obtain ⟨hm2, hd29⟩ := hdoy365 h365
    have hL : y % 4 = 0 ∧ (y % 100 ≠ 0 ∨ y % 400 = 0) := by
      rcases hdarith.1 hm2 with h | h
      · exact h.1
      · omega
    rw [if_pos (by omega : m ≤ 2)] at hy2
    omega
  unfold civilFromDays
  set za := z + 719468 with hza
  set er := za / 146097 with her
  set doeV := za - er * 146097 with hdoeV
  set c0 := doeV / 36524 with hc0
  set cV := if c0 > 3 then 3 else c0 with hcV
  set r1V := doeV - 36524 * cV with hr1V
  set qV := r1V / 1461 with hqV
  set r2V := r1V - 1461 * qV with hr2V
  set yl0 := r2V / 365 with hyl0
  set ylV := if yl0 > 3 then 3 else yl0 with hylV
  set doyV := r2V - 365 * ylV with hdoyV
  set mpV := (5 * doyV + 2) / 153 with hmpV
  set dV := doyV - (153 * mpV + 2) / 5 + 1 with hdV
  set mV := mpV + (if mpV < 10 then 3 else -9) with hmV
  have her' : er = era ∧ doeV = doe := by
    constructor <;> omega
  have hcV' : cV = cc := by
    rw [hcV]
    split <;> omega
  have hq' : qV = qq ∧ r2V = 365 * yy + doy := by
    constructor <;> omega
  have hylV' : ylV = yy := by
    rw [hylV]
    split <;> omega
  have hdoyV' : doyV = doy := by omega
  have hmpV' : mpV = m + (if m > 2 then -3 else 9) := by
    rcases Int.lt_or_le 2 m with h2 | h2
    · rw [if_pos h2] at hmptab ⊢
      omega
    · rw [if_neg (by omega)] at hmptab ⊢
      omega
  have hmV' : mV = m := by
    rcases Int.lt_or_le 2 m with h2 | h2
    · rw [if_pos h2] at hmpV'
      rw [hmV, if_pos (by omega)]
      omega
    · rw [if_neg (by omega)] at hmpV'
      rw [hmV, if_neg (by omega)]
      omega
  have hdV' : dV = d := by
    rcases Int.lt_or_le 2 m with h2 | h2
    · rw [if_pos h2] at hmpV' hdoy
      omega
    · rw [if_neg (by omega)] at hmpV' hdoy
      omega
  have hyear : 100 * cV + 4 * qV + ylV + er * 400 + (if mV ≤ 2 then 1 else 0) = y := by
    rcases Int.lt_or_le 2 m with h2 | h2
    · rw [hmV', if_neg (by omega : ¬ (m ≤ 2))]
      rw [if_neg (by omega : ¬ (m ≤ 2))] at hy2
      omega
    · rw [hmV', if_pos (by omega : m ≤ 2)]
      rw [if_pos (by omega : m ≤ 2)] at hy2
      omega
  rw [Prod.mk.injEq, Prod.mk.injEq]
  exact ⟨hyear, hmV', hdV'⟩

/-- `civilFromDays` is a left inverse of `daysFromCivil` on valid dates. -/
theorem civil_days_roundtrip (y m d : Int) (hm : 1 ≤ m ∧ m ≤ 12)
    (hd : 1 ≤ d ∧ d ≤ daysInMonth y m) :
    civilFromDays (daysFromCivil y m d) = (y, m, d) := by
  exact civilFromDays_core y m d _ _ _ _ _ _ hm hd rfl rfl rfl rfl rfl rfl

theorem civil_valid_core (z era doe c r1 q r2 yl doy yoe mp d m : Int)
    (hera : era = (z + 719468) / 146097)
    (hdoe : doe = z + 719468 - era * 146097)
    (hc : c = if doe / 36524 > 3 then 3 else doe / 36524)
    (hr1 : r1 = doe - 36524 * c)
    (hq : q = r1 / 1461)
    (hr2 : r2 = r1 - 1461 * q)
    (hyl : yl = if r2 / 365 > 3 then 3 else r2 / 365)
    (hdoy : doy = r2 - 365 * yl)
    (hyoe : yoe = 100 * c + 4 * q + yl)
    (hmp : mp = (5 * doy + 2) / 153)
    (hd : d = doy - (153 * mp + 2) / 5 + 1)
    (hm : m = mp + (if mp < 10 then 3 else -9)) :
    1 ≤ m ∧ m ≤ 12 ∧ 1 ≤ d ∧
      d ≤ daysInMonth (yoe + era * 400 + (if m ≤ 2 then 1 else 0)) m := by
  have hcb : (0 ≤ c ∧ c ≤ 3) ∧ 0 ≤ r1 ∧ r1 ≤ 36524 := by
    split at hc <;> omega
  have hqb : (0 ≤ q ∧ q ≤ 24) ∧ 0 ≤ r2 ∧ r2 ≤ 1460 := by omega
  have hylb : (0 ≤ yl ∧ yl ≤ 3) ∧ 0 ≤ doy ∧ doy ≤ 365 := by
    split at hyl <;> omega
  have hmpb : 0 ≤ mp ∧ mp ≤ 11 := by omega
  have hdoy365 : doy = 365 → yl = 3 ∧ (q ≠ 24 ∨ c = 3) := by
    intro h365
    constructor
    · split at hyl <;> omega
    · split at hc
      · omega
      · split at hyl <;> omega
  obtain ⟨hmp0, hmp11b⟩ := hmpb
  unfold daysInMonth
  by_cases hm2 : m = 2
  · rw [if_pos hm2]
    have hmp11 : mp = 11 := by
      rcases (by split at hm <;> omega : m = mp + 3 ∨ m = mp - 9) with h | h <;> omega
    cases hL : isLeap (yoe + era * 400 + (if m ≤ 2 then 1 else 0)) with
    | true =>
      show 1 ≤ m ∧ m ≤ 12 ∧ 1 ≤ d ∧ d ≤ 29
      omega
    | false =>
      show 1 ≤ m ∧ m ≤ 12 ∧ 1 ≤ d ∧ d ≤ 28
      rw [if_pos (by omega : m ≤ 2)] at hL
      have hnl : ¬((yoe + era * 400 + 1) % 4 = 0 ∧
          ((yoe + era * 400 + 1) % 100 ≠ 0 ∨ (yoe + era * 400 + 1) % 400 = 0)) := by
        intro hA
        rw [(isLeap_iff _).mpr hA] at hL
        cases hL
      omega
  · rw [if_neg hm2]
    rcases (by split at hm <;> omega : m = mp + 3 ∨ m = mp - 9) with h | h
    · split
      · omega
      · interval_cases mp <;> omega
    · split
      · omega
      · interval_cases mp <;> omega

/-- `civilFromDays` always produces a valid month and day-of-month. -/
theorem civil_valid (z : Int) :
    1 ≤ (civilFromDays z).2.1 ∧ (civilFromDays z).2.1 ≤ 12 ∧
      1 ≤ (civilFromDays z).2.2 ∧
      (civilFromDays z).2.2 ≤ daysInMonth (civilFromDays z).1 (civilFromDays z).2.1 := by
  exact civil_valid_core z _ _ _ _ _ _ _ _ _ _ _ _
    rfl rfl rfl rfl rfl rfl rfl rfl rfl rfl rfl rfl

theorem civil_year_core (z era doe c r1 q r2 yl doy yoe mp d m : Int)
    (hz : -719528 ≤ z ∧ z ≤ 2932896)
    (hera : era = (z + 719468) / 146097)
    (hdoe : doe = z + 719468 - era * 146097)
    (hc : c = if doe / 36524 > 3 then 3 else doe / 36524)
    (hr1 : r1 = doe - 36524 * c)
    (hq : q = r1 / 1461)
    (hr2 : r2 = r1 - 1461 * q)
    (hyl : yl = if r2 / 365 > 3 then 3 else r2 / 365)
    (hdoy : doy = r2 - 365 * yl)
    (hyoe : yoe = 100 * c + 4 * q + yl)
    (hmp : mp = (5 * doy + 2) / 153)
    (hd : d = doy - (153 * mp + 2) / 5 + 1)
    (hm : m = mp + (if mp < 10 then 3 else -9)) :
    0 ≤ yoe + era * 400 + (if m ≤ 2 then 1 else 0) ∧
      yoe + era * 400 + (if m ≤ 2 then 1 else 0) ≤ 9999 := by
  have hcb : (0 ≤ c ∧ c ≤ 3) ∧ 0 ≤ r1 ∧ r1 ≤ 36524 := by
    split at hc <;> omega
  have hqb : (0 ≤ q ∧ q ≤ 24) ∧ 0 ≤ r2 ∧ r2 ≤ 1460 := by omega
  have hylb : (0 ≤ yl ∧ yl ≤ 3) ∧ 0 ≤ doy ∧ doy ≤ 365 := by
    split at hyl <;> omega
  have hmpb : 0 ≤ mp ∧ mp ≤ 11 := by omega
  have hcs : (doe / 36524 > 3 ∧ c = 3) ∨ (doe / 36524 ≤ 3 ∧ c = doe / 36524) := by
    split at hc <;> omega
  have hyls : (r2 / 365 > 3 ∧ yl = 3) ∨ (r2 / 365 ≤ 3 ∧ yl = r2 / 365) := by
    split at hyl <;> omega
  have heb : -1 ≤ era ∧ era ≤ 24 := by omega
  have herayoe : era = -1 → yoe = 399 ∧ 306 ≤ doy := by
    intro he
    rcases hcs with ⟨h1, h2⟩ | ⟨h1, h2⟩ <;> rcases hyls with ⟨h3, h4⟩ | ⟨h3, h4⟩ <;> omega
  have herahi : era = 24 → doe ≤ 146036 := by omega
  rcases (by split at hm <;> omega : (m = mp + 3 ∧ mp < 10) ∨ (m = mp - 9 ∧ 10 ≤ mp))
    with ⟨h, h10⟩ | ⟨h, h10⟩
  · rw [if_neg (by omega : ¬ (m ≤ 2))]
    have hmplt : mp ≤ 9 := by omega
    have hdoylt : doy ≤ 305 := by omega
    have : ¬ (era = -1) := by
      intro he
      exact absurd (herayoe he).2 (by omega)
    omega
  · rw [if_pos (by omega : m ≤ 2)]
    have hdoyge : 306 ≤ doy := by omega
    have hhi : era = 24 → yoe ≤ 398 := by
      intro he
      rcases hcs with ⟨h1, h2⟩ | ⟨h1, h2⟩ <;> rcases hyls with ⟨h3, h4⟩ | ⟨h3, h4⟩ <;> omega
    omega

/-- Years of representable ISO dates stay within four digits. -/
theorem civil_year_range (z : Int) (hz : -719528 ≤ z ∧ z ≤ 2932896) :
    0 ≤ (civilFromDays z).1 ∧ (civilFromDays z).1 ≤ 9999 := by
  exact civil_year_core z _ _ _ _ _ _ _ _ _ _ _ _ hz
    rfl rfl rfl rfl rfl rfl rfl rfl rfl rfl rfl rfl

theorem daysInMonth_bounds (y m : Int) : 28 ≤ daysInMonth y m ∧ daysInMonth y m ≤ 31 := by
  unfold daysInMonth
  split
  · split <;> omega
  · split <;> omega

theorem days_sub_one (y m d : Int) :
    daysFromCivil y m (d - 1) = daysFromCivil y m d - 1 := by
  simp only [daysFromCivil]
  split <;> split <;> omega

theorem days_month_step (y m : Int) (hm : 2 ≤ m ∧ m ≤ 12) :
    daysFromCivil y (m - 1) (daysInMonth y (m - 1)) = daysFromCivil y m 1 - 1 := by
  obtain ⟨hm2, hm12⟩ := hm
  rcases Int.lt_or_le 3 m with h3 | h3
  · simp only [daysFromCivil, daysInMonth]
    rw [if_neg (by omega : ¬ (m - 1 ≤ 2)), if_neg (by omega : ¬ (m ≤ 2)),
      if_pos (by omega : m - 1 > 2), if_pos (by omega : m > 2),
      if_neg (by omega : ¬ (m - 1 = 2)), sub_zero]
    interval_cases m <;> norm_num <;> omega
  · rcases (by omega : m = 2 ∨ m = 3) with rfl | rfl
    · simp only [daysFromCivil, daysInMonth]
      rw [if_pos (by norm_num : (2:Int) - 1 ≤ 2), if_pos (by norm_num : (2:Int) ≤ 2),
        if_neg (by norm_num : ¬ ((2:Int) - 1 > 2)), if_neg (by norm_num : ¬ ((2:Int) > 2)),
        if_neg (by norm_num : ¬ ((2:Int) - 1 = 2)),
        if_neg (by norm_num :
          ¬ ((2:Int) - 1 = 4 ∨ (2:Int) - 1 = 6 ∨ (2:Int) - 1 = 9 ∨ (2:Int) - 1 = 11))]
      omega
    · simp only [daysFromCivil, daysInMonth]
      rw [if_pos (by norm_num : (3:Int) - 1 ≤ 2), if_neg (by norm_num : ¬ ((3:Int) ≤ 2)),
        if_neg (by norm_num : ¬ ((3:Int) - 1 > 2)), if_pos (by norm_num : (3:Int) > 2),
        if_pos (by norm_num : (3:Int) - 1 = 2), sub_zero]
      cases hL : isLeap y with
      | true =>
        have hA := (isLeap_iff y).mp hL
        rw [show (if (true : Bool) = true then (29:Int) else 28) = 29 from rfl]
        rcases (by omega :
            y - 1 - (y - 1) / 400 * 400 = 399 ∨ y - 1 - (y - 1) / 400 * 400 ≤ 398)
          with h399 | h399
        · have hroll : y / 400 = (y - 1) / 400 + 1 ∧ y - y / 400 * 400 = 0 := by omega
          omega
        · have hsame : y / 400 = (y - 1) / 400 ∧
              y - y / 400 * 400 = y - 1 - (y - 1) / 400 * 400 + 1 := by omega
          omega
      | false =>
        have hnl : ¬ (y % 4 = 0 ∧ (y % 100 ≠ 0 ∨ y % 400 = 0)) := by
          intro hA
          rw [(isLeap_iff y).mpr hA] at hL
          cases hL
        rw [show (if (false : Bool) = true then (29:Int) else 28) = 28 from rfl]
        rcases (by omega :
            y - 1 - (y - 1) / 400 * 400 = 399 ∨ y - 1 - (y - 1) / 400 * 400 ≤ 398)
          with h399 | h399
        · have hroll : y / 400 = (y - 1) / 400 + 1 ∧ y - y / 400 * 400 = 0 := by omega
          omega
        · have hsame : y / 400 = (y - 1) / 400 ∧
              y - y / 400 * 400 = y - 1 - (y - 1) / 400 * 400 + 1 := by omega
          omega

theorem days_year_step (y : Int) :
    daysFromCivil (y - 1) 12 31 = daysFromCivil y 1 1 - 1 := by
  simp only [daysFromCivil]
  rw [if_neg (by norm_num : ¬ ((12:Int) ≤ 2)), if_pos (by norm_num : (1:Int) ≤ 2),
    if_pos (by norm_num : (12:Int) > 2), if_neg (by norm_num : ¬ ((1:Int) > 2)), sub_zero]
  omega

/-! ## Date strings

Formatting and parsing of `YYYY-MM-DD` strings, and the code-point
lexicographic string order used by both JavaScript string comparison and
MongoDB string keys. -/

/-- Numeric value of a digit character. -/
def digitVal (c : Char) : Int := (c.toNat : Int) - 48

/-- Whether a character is a decimal digit. -/
def isDig (c : Char) : Bool := 48 ≤ c.toNat && c.toNat ≤ 57

/-- Two zero-padded decimal digits (for values 0-99). -/
def pad2ch (n : Int) : List Char :=
  [Nat.digitChar (n.toNat / 10 % 10), Nat.digitChar (n.toNat % 10)]

/-- Four zero-padded decimal digits (for values 0-9999). -/
def pad4ch (n : Int) : List Char :=
  [Nat.digitChar (n.toNat / 1000 % 10), Nat.digitChar (n.toNat / 100 % 10),
   Nat.digitChar (n.toNat / 10 % 10), Nat.digitChar (n.toNat % 10)]

/-- The date part of an ECMAScript `toISOString` result: `YYYY-MM-DD`. -/
def formatISODate (y m d : Int) : String :=
  ⟨pad4ch y ++ '-' :: (pad2ch m ++ '-' :: pad2ch d)⟩

def parseISOList : List Char → Option (Int × Int × Int)
  | [a, b, c, e, h1, f, g, h2, i, j] =>
    if isDig a ∧ isDig b ∧ isDig c ∧ isDig e ∧ h1 = '-' ∧ isDig f ∧ isDig g
        ∧ h2 = '-' ∧ isDig i ∧ isDig j then
      let y := 1000 * digitVal a + 100 * digitVal b + 10 * digitVal c + digitVal e
      let m := 10 * digitVal f + digitVal g
      let d := 10 * digitVal i + digitVal j
      if 1 ≤ m ∧ m ≤ 12 ∧ 1 ≤ d ∧ d ≤ 31 then some (y, m, d) else none
    else none
  | _ => none

/-- Model of ECMAScript `Date` parsing of a date-only ISO string `YYYY-MM-DD`:
the grammar accepts months 01-12 and days 01-31 (MakeDay then extrapolates
out-of-range days linearly, exactly as `daysFromCivil` does); all other
strings are rejected (an invalid `Date`). -/
def parseISODate (s : String) : Option (Int × Int × Int) := parseISOList s.data

/-- Lexicographic comparison of character lists by code point. -/
def charListLt : List Char → List Char → Bool
  | _, [] => false
  | [], _ :: _ => true
  | a :: as, b :: bs =>
    if a.val < b.val then true else if b.val < a.val then false else charListLt as bs

/-- The string order used by MongoDB string comparison (and JavaScript `<`). -/
def strLt (s t : String) : Bool := charListLt s.data t.data

theorem isDig_digitChar : ∀ k : Nat, k < 10 → isDig (Nat.digitChar k) = true := by decide

theorem digitVal_digitChar : ∀ k : Nat, k < 10 → digitVal (Nat.digitChar k) = (k : Int) := by
  decide

theorem digitChar_val_lt : ∀ a : Nat, a < 10 → ∀ b : Nat, b < 10 → a < b →
    (Nat.digitChar a).val < (Nat.digitChar b).val := by decide

theorem char_val_lt_irrefl (c : Char) : ¬ (c.val < c.val) := by
  simp

theorem charListLt_cons_self (c : Char) (l1 l2 : List Char) :
    charListLt (c :: l1) (c :: l2) = charListLt l1 l2 := by
  show (if c.val < c.val then true else if c.val < c.val then false else charListLt l1 l2)
      = charListLt l1 l2
  rw [if_neg (char_val_lt_irrefl c), if_neg (char_val_lt_irrefl c)]

theorem charListLt_head (a b : Char) (h : a.val < b.val) (l1 l2 : List Char) :
    charListLt (a :: l1) (b :: l2) = true := by
  show (if a.val < b.val then true else if b.val < a.val then false else charListLt l1 l2) = true
  rw [if_pos h]

theorem charListLt_append_same (xs : List Char) (r1 r2 : List Char) :
    charListLt (xs ++ r1) (xs ++ r2) = charListLt r1 r2 := by
  induction xs with
  | nil => rfl
  | cons c cs ih => rw [List.cons_append, List.cons_append, charListLt_cons_self, ih]

theorem pad2_lt (a b : Int) (h0 : 0 ≤ a) (hab : a < b) (hb : b ≤ 99) (r1 r2 : List Char) :
    charListLt (pad2ch a ++ r1) (pad2ch b ++ r2) = true := by
  simp only [pad2ch, List.cons_append, List.nil_append]
  by_cases ht : a.toNat / 10 % 10 < b.toNat / 10 % 10
  · exact charListLt_head _ _
      (digitChar_val_lt _ (Nat.mod_lt _ (by norm_num)) _ (Nat.mod_lt _ (by norm_num)) ht) _ _
  · have hte : a.toNat / 10 % 10 = b.toNat / 10 % 10 := by omega
    rw [hte, charListLt_cons_self]
    have hon : a.toNat % 10 < b.toNat % 10 := by omega
    exact charListLt_head _ _
      (digitChar_val_lt _ (Nat.mod_lt _ (by norm_num)) _ (Nat.mod_lt _ (by norm_num)) hon) _ _

theorem pad4_lt (a b : Int) (h0 : 0 ≤ a) (hab : a < b) (hb : b ≤ 9999) (r1 r2 : List Char) :
    charListLt (pad4ch a ++ r1) (pad4ch b ++ r2) = true := by
  simp only [pad4ch, List.cons_append, List.nil_append]
  by_cases h3 : a.toNat / 1000 % 10 < b.toNat / 1000 % 10
  · exact charListLt_head _ _
      (digitChar_val_lt _ (Nat.mod_lt _ (by norm_num)) _ (Nat.mod_lt _ (by norm_num)) h3) _ _
  · have he3 : a.toNat / 1000 % 10 = b.toNat / 1000 % 10 := by omega
    rw [he3, charListLt_cons_self]
    by_cases h2 : a.toNat / 100 % 10 < b.toNat / 100 % 10
    · exact charListLt_head _ _
        (digitChar_val_lt _ (Nat.mod_lt _ (by norm_num)) _ (Nat.mod_lt _ (by norm_num)) h2) _ _
    · have he2 : a.toNat / 100 % 10 = b.toNat / 100 % 10 := by omega
      rw [he2, charListLt_cons_self]
      by_cases h1 : a.toNat / 10 % 10 < b.toNat / 10 % 10
      · exact charListLt_head _ _
          (digitChar_val_lt _ (Nat.mod_lt _ (by norm_num)) _ (Nat.mod_lt _ (by norm_num)) h1) _ _
      · have he1 : a.toNat / 10 % 10 = b.toNat / 10 % 10 := by omega
        rw [he1, charListLt_cons_self]
        have h0' : a.toNat % 10 < b.toNat % 10 := by omega
        exact charListLt_head _ _
          (digitChar_val_lt _ (Nat.mod_lt _ (by norm_num)) _ (Nat.mod_lt _ (by norm_num)) h0') _ _

theorem parse_format (y m d : Int) (hy : 0 ≤ y ∧ y ≤ 9999) (hm : 1 ≤ m ∧ m ≤ 12)
    (hd : 1 ≤ d ∧ d ≤ 31) :
    parseISODate (formatISODate y m d) = some (y, m, d) := by
  have h10 : ∀ n : Nat, n % 10 < 10 := fun n => Nat.mod_lt _ (by norm_num)
  show parseISOList (pad4ch y ++ '-' :: (pad2ch m ++ '-' :: pad2ch d)) = some (y, m, d)
  simp only [pad4ch, pad2ch, List.cons_append, List.nil_append, parseISOList]
  rw [if_pos (by
    refine ⟨isDig_digitChar _ (h10 _), isDig_digitChar _ (h10 _),
      isDig_digitChar _ (h10 _), isDig_digitChar _ (h10 _), by trivial,
      isDig_digitChar _ (h10 _), isDig_digitChar _ (h10 _), by trivial,
      isDig_digitChar _ (h10 _), isDig_digitChar _ (h10 _)⟩)]
  rw [digitVal_digitChar _ (h10 _), digitVal_digitChar _ (h10 _), digitVal_digitChar _ (h10 _),
    digitVal_digitChar _ (h10 _), digitVal_digitChar _ (h10 _), digitVal_digitChar _ (h10 _),
    digitVal_digitChar _ (h10 _), digitVal_digitChar _ (h10 _)]
  rw [if_pos (by omega)]
  have hyv : 1000 * ((y.toNat / 1000 % 10 : Nat) : Int) + 100 * ((y.toNat / 100 % 10 : Nat) : Int)
      + 10 * ((y.toNat / 10 % 10 : Nat) : Int) + ((y.toNat % 10 : Nat) : Int) = y := by omega
  have hmv : 10 * ((m.toNat / 10 % 10 : Nat) : Int) + ((m.toNat % 10 : Nat) : Int) = m := by omega
  have hdv : 10 * ((d.toNat / 10 % 10 : Nat) : Int) + ((d.toNat % 10 : Nat) : Int) = d := by omega
  rw [hyv, hmv, hdv]

theorem parseISOList_bounds (l : List Char) (y m d : Int)
    (h : parseISOList l = some (y, m, d)) :
    (0 ≤ y ∧ y ≤ 9999) ∧ (1 ≤ m ∧ m ≤ 12) ∧ (1 ≤ d ∧ d ≤ 31) := by
  unfold parseISOList at h
  split at h
  · split at h
    · dsimp only at h
      split at h
      · rename_i chs hdig hrange
        injection h with h'
        obtain ⟨hda, hdb, hdc, hde, hhy, hdf, hdg, hhy2, hdi, hdj⟩ := hdig
        simp only [isDig, Bool.and_eq_true, decide_eq_true_eq] at hda hdb hdc hde hdf hdg hdi hdj
        have hy' := congrArg (fun p : Int × Int × Int => p.1) h'
        have hm' := congrArg (fun p : Int × Int × Int => p.2.1) h'
        have hd' := congrArg (fun p : Int × Int × Int => p.2.2) h'
        simp only [digitVal] at hy' hm' hd' hrange ⊢
        refine ⟨⟨?_, ?_⟩, ⟨?_, ?_⟩, ⟨?_, ?_⟩⟩ <;> omega
      · exact absurd h (by simp)
    · exact absurd h (by simp)
  · exact absurd h (by simp)

/-! ## Model of the IST utilities (src/lib/ist-utils.ts)

An instant is a count of milliseconds since the epoch (the value of a
JavaScript `Date`).  The server is assumed to run in UTC, so
`getISTDate` — `new Date(d.toLocaleString("en-US", {timeZone: "Asia/Kolkata"}))`
— shifts the instant by +05:30 (19800000 ms), and
`toISOString().split("T")[0]` takes the UTC calendar date of the shifted
instant. -/

def formatCivil (t : Int × Int × Int) : String := formatISODate t.1 t.2.1 t.2.2

/-- The date part of `Date.prototype.toISOString` at instant `ms`. -/
def toISODateStringOfMs (ms : Int) : String := formatCivil (civilFromDays (ms / 86400000))

/-- `getISTDateString` applied to a `Date` holding instant `ms`. -/
def getISTDateStringOfMs (ms : Int) : String := toISODateStringOfMs (ms + 19800000)

/-- The instant denoted by a date-only string per ECMAScript (midnight UTC);
`none` models an invalid `Date`. -/
def parseDateOnlyMs (s : String) : Option Int :=
  (parseISODate s).map (fun t => daysFromCivil t.1 t.2.1 t.2.2 * 86400000)

/-- `getISTDateString(new Date(s))` for a string input `s`; `none` models the
RangeError that `toISOString` raises on an invalid `Date` (so the caller's
try/catch reports a 500). -/
def getISTDateStringOfInput (s : String) : Option String :=
  (parseDateOnlyMs s).map getISTDateStringOfMs

theorem days_range (y m d : Int) (hy : 0 ≤ y ∧ y ≤ 9999) (hm : 1 ≤ m ∧ m ≤ 12)
    (hd : 1 ≤ d ∧ d ≤ 31) :
    -719528 ≤ daysFromCivil y m d ∧ daysFromCivil y m d ≤ 2932896 := by
  simp only [daysFromCivil]
  split <;> split <;> omega

theorem getISTDateStringOfMs_day (z : Int) :
    getISTDateStringOfMs (z * 86400000) = formatCivil (civilFromDays z) := by
  unfold getISTDateStringOfMs toISODateStringOfMs
  rw [show (z * 86400000 + 19800000) / 86400000 = z from by omega]

/-- Normalizing a date-only string resolves to the same civil day: midnight UTC
shifted by +05:30 is still inside the same UTC calendar day. -/
theorem normalize_parsed (s : String) (y m d : Int) (h : parseISODate s = some (y, m, d)) :
    getISTDateStringOfInput s = some (formatCivil (civilFromDays (daysFromCivil y m d))) := by
  unfold getISTDateStringOfInput parseDateOnlyMs
  rw [h]
  show some (getISTDateStringOfMs (daysFromCivil y m d * 86400000)) = _
  rw [getISTDateStringOfMs_day]

theorem normalize_format_civil (z : Int) (hz : -719528 ≤ z ∧ z ≤ 2932896) :
    getISTDateStringOfInput (formatCivil (civilFromDays z))
      = some (formatCivil (civilFromDays z)) := by
  have hv := civil_valid z
  have hy := civil_year_range z hz
  have hdim := daysInMonth_bounds (civilFromDays z).1 (civilFromDays z).2.1
  have hp : parseISODate (formatCivil (civilFromDays z))
      = some ((civilFromDays z).1, (civilFromDays z).2.1, (civilFromDays z).2.2) :=
    parse_format _ _ _ hy ⟨hv.1, hv.2.1⟩ ⟨hv.2.2.1, by omega⟩
  rw [normalize_parsed _ _ _ _ hp, days_civil_roundtrip]

/-- C4 (idempotence of the timezone normalizer): whenever `getISTDateString`
maps a date string `s` to `t`, it maps `t` to `t` itself. -/
theorem getISTDateString_idempotent (s t : String)
    (h : getISTDateStringOfInput s = some t) :
    getISTDateStringOfInput t = some t := by
  cases hp : parseISODate s with
  | none =>
    unfold getISTDateStringOfInput parseDateOnlyMs at h
    rw [hp] at h
    simp at h
  | some p =>
    obtain ⟨y, m, d⟩ := p
    obtain ⟨hy, hm, hd⟩ := parseISOList_bounds _ _ _ _ hp
    have ht : t = formatCivil (civilFromDays (daysFromCivil y m d)) :=
      Option.some.inj (h.symm.trans (normalize_parsed s y m d hp))
    rw [ht]
    exact normalize_format_civil _ (days_range y m d hy hm hd)

/-- Witness for C4 at a concrete date. -/
theorem getISTDateString_idempotent_witness :
    getISTDateStringOfInput "2025-07-03" = some "2025-07-03" :=
  getISTDateString_idempotent "2025-07-03" "2025-07-03" (by decide)

theorem format_assoc (y m d : Int) :
    (formatISODate y m d).data = (pad4ch y ++ '-' :: pad2ch m ++ ['-']) ++ pad2ch d := by
  show pad4ch y ++ '-' :: (pad2ch m ++ '-' :: pad2ch d)
      = (pad4ch y ++ '-' :: pad2ch m ++ ['-']) ++ pad2ch d
  simp [List.append_assoc]

theorem format_lt_day (y m d1 d2 : Int) (h : 0 ≤ d1 ∧ d1 < d2 ∧ d2 ≤ 99) :
    strLt (formatISODate y m d1) (formatISODate y m d2) = true := by
  unfold strLt
  rw [format_assoc, format_assoc, charListLt_append_same]
  have := pad2_lt d1 d2 h.1 h.2.1 (by omega) [] []
  rwa [List.append_nil, List.append_nil] at this

theorem format_lt_month (y m1 m2 d1 d2 : Int) (h : 0 ≤ m1 ∧ m1 < m2 ∧ m2 ≤ 99) :
    strLt (formatISODate y m1 d1) (formatISODate y m2 d2) = true := by
  unfold strLt
  show charListLt (pad4ch y ++ '-' :: (pad2ch m1 ++ '-' :: pad2ch d1))
    (pad4ch y ++ '-' :: (pad2ch m2 ++ '-' :: pad2ch d2)) = true
  rw [show pad4ch y ++ '-' :: (pad2ch m1 ++ '-' :: pad2ch d1)
      = (pad4ch y ++ ['-']) ++ (pad2ch m1 ++ '-' :: pad2ch d1) from by simp,
    show pad4ch y ++ '-' :: (pad2ch m2 ++ '-' :: pad2ch d2)
      = (pad4ch y ++ ['-']) ++ (pad2ch m2 ++ '-' :: pad2ch d2) from by simp,
    charListLt_append_same]
  exact pad2_lt m1 m2 h.1 h.2.1 (by omega) _ _

theorem format_lt_year (y1 y2 m1 m2 d1 d2 : Int) (h : 0 ≤ y1 ∧ y1 < y2 ∧ y2 ≤ 9999) :
    strLt (formatISODate y1 m1 d1) (formatISODate y2 m2 d2) = true := by
  unfold strLt
  exact pad4_lt y1 y2 h.1 h.2.1 (by omega) _ _

/-- The ISO date string of the previous day is lexicographically smaller
(for days whose years have four digits). -/
theorem format_pred_lt (z : Int) (hz : -719162 ≤ z ∧ z ≤ 2932896) :
    strLt (formatCivil (civilFromDays (z - 1))) (formatCivil (civilFromDays z)) = true := by
  have hv := civil_valid z
  have hrt := days_civil_roundtrip z
  rcases hcz : civilFromDays z with ⟨y, my, dy⟩
  rw [hcz] at hv hrt
  simp only at hv hrt
  obtain ⟨hm1, hm2, hd1, hd2⟩ := hv
  rcases Int.lt_or_le 1 dy with hdy | hdy
  · -- previous day in the same month
    have hpred : civilFromDays (z - 1) = (y, my, dy - 1) := by
      rw [← hrt, ← days_sub_one]
      exact civil_days_roundtrip y my (dy - 1) ⟨hm1, hm2⟩
        ⟨by omega, by omega⟩
    rw [hpred]
    have := daysInMonth_bounds y my
    exact format_lt_day y my (dy - 1) dy ⟨by omega, by omega, by omega⟩
  · have hdy1 : dy = 1 := by omega
    rcases Int.lt_or_le 1 my with hmy | hmy
    · -- previous day is the last day of the previous month
      have hpred : civilFromDays (z - 1) = (y, my - 1, daysInMonth y (my - 1)) := by
        rw [← hrt, hdy1, ← days_month_step y my ⟨by omega, hm2⟩]
        have := daysInMonth_bounds y (my - 1)
        exact civil_days_roundtrip y (my - 1) (daysInMonth y (my - 1))
          ⟨by omega, by omega⟩ ⟨by omega, by omega⟩
      rw [hpred]
      exact format_lt_month y (my - 1) my (daysInMonth y (my - 1)) dy
        ⟨by omega, by omega, by omega⟩
    · -- previous day is December 31 of the previous year
      have hmy1 : my = 1 := by omega
      have hyb : 1 ≤ y ∧ y ≤ 9999 := by
        rw [hmy1] at hrt
        rw [hdy1] at hrt
        revert hrt
        simp only [daysFromCivil]
        rw [if_pos (by norm_num : (1:Int) ≤ 2), if_neg (by norm_num : ¬ ((1:Int) > 2))]
        intro hrt
        omega
      have hpred : civilFromDays (z - 1) = (y - 1, 12, 31) := by
        rw [← hrt, hdy1, hmy1, ← days_year_step y]
        exact civil_days_roundtrip (y - 1) 12 31 ⟨by omega, by omega⟩
          ⟨by omega, by
            unfold daysInMonth
            rw [if_neg (by norm_num : ¬ ((12:Int) = 2)),
              if_neg (by norm_num : ¬ ((12:Int) = 4 ∨ (12:Int) = 6 ∨ (12:Int) = 9 ∨ (12:Int) = 11))]⟩
      rw [hpred]
      exact format_lt_year (y - 1) y 12 my 31 dy ⟨by omega, by omega, by omega⟩

/-! ## Data model (src/models/DailyContent.ts)

One stored document per canonical date.  The photo bytes are embedded
(`imageBlob`), the comic is stored as a remote reference with both fields
required strings. -/

structure PoemT where
  title : String
  author : String
  lines : List String
deriving DecidableEq

inductive JokeT where
  | single (joke : String)
  | twopart (setup delivery : String)
deriving DecidableEq

structure ActivityT where
  activity : String
deriving DecidableEq

structure FactT where
  fact : String
deriving DecidableEq

structure ComicT where
  imageUrl : String
  altText : String
deriving DecidableEq

structure PhotoT where
  imageBlob : List Nat
  label : String
deriving DecidableEq

structure Edition where
  date : String
  headline : String
  photo : PhotoT
  poem : PoemT
  joke : JokeT
  activity : ActivityT
  catFact : FactT
  dogFact : FactT
  triviaFact : FactT
  comic : ComicT
deriving DecidableEq

/-! ## Authorization (src/app/api/auth/login/route.ts and verifyAdminAccess) -/

/-- A signed JWT as issued by the login route: the claims it carries and the
secret it was signed with.  `exp` is in seconds since the epoch. -/
structure Token where
  hasAdminClaim : Bool
  exp : Int
  signedWith : String
deriving DecidableEq

/-- An Authorization header: whether it starts with "Bearer ", and the token
parsed from its second word (`none` when that is not a well-formed JWT). -/
structure AuthHeader where
  isBearer : Bool
  token : Option Token
deriving DecidableEq

/-- jsonwebtoken's verify: the signature must have been produced with the
same secret, and verification throws TokenExpiredError once `exp ≤ now`. -/
def jwtVerify (t : Token) (secret : String) (nowSec : Int) : Bool :=
  t.signedWith == secret && decide (nowSec < t.exp)

/-- Model of verifyAdminAccess (publish route lines 21-45): Bearer header,
ADMIN_PASSWORD present, token verifies, decoded payload has an "admin" key.
Any verification error yields false; the guard never throws. -/
def verifyAdminAccess (header : Option AuthHeader) (envPassword : Option String)
    (nowSec : Int) : Bool :=
  match header with
  | none => false
  | some h =>
    if !h.isBearer then false
    else
      match envPassword with
      | none => false
      | some pw =>
        match h.token with
        | none => false
        | some t => jwtVerify t pw nowSec && t.hasAdminClaim

inductive LoginResult where
  | ok (token : Token)
  | invalid
deriving DecidableEq

/-- Model of POST /api/auth/login: reject (401) when ADMIN_PASSWORD is unset
or the supplied password differs; otherwise sign `{admin: true}` with the
admin password, expiring in 7 days. -/
def loginPOST (envPassword : Option String) (password : Option String)
    (nowSec : Int) : LoginResult :=
  match envPassword with
  | none => .invalid
  | some pw =>
    if password = some pw then
      .ok { hasAdminClaim := true, exp := nowSec + 7 * 24 * 60 * 60, signedWith := pw }
    else .invalid

/-! ## Publish workflow (src/app/api/publish/route.ts) -/

/-- The comic value as it arrives from fetchAllContent: the adapter may
report a null imageUrl; absent or null string fields are `none`. -/
structure ComicFetched where
  imageUrl : Option String
  altText : Option String
deriving DecidableEq

/-- Aggregated adapter content produced by fetchAllContent: each field is the
corresponding adapter's response body, or the fixed fallback when that fetch
rejected (Promise.allSettled absorbs every failure). -/
structure ApiContent where
  poem : PoemT
  joke : JokeT
  activity : ActivityT
  catFact : FactT
  dogFact : FactT
  triviaFact : FactT
  comic : ComicFetched
deriving DecidableEq

/-- JavaScript `a || b` on an optional string: null, undefined and "" are
falsy. -/
def jsOrString : Option String → String → String
  | some s, dflt => if s = "" then dflt else s
  | none, dflt => dflt

/-- Mongo findOne({date}): the first stored document for the date. -/
def findOneByDate (store : List Edition) (d : String) : Option Edition :=
  store.find? (fun e => e.date == d)

/-- Mongo findOneAndUpdate({date}, contentData): replace every field of the
first matching document. -/
def updateFirst (store : List Edition) (d : String) (e : Edition) : List Edition :=
  match store with
  | [] => []
  | x :: xs => if x.date == d then e :: xs else x :: updateFirst xs d e

/-- The date the publish route uses (route line 196): normalize the supplied
string, or the current instant when the field is absent or empty.  `none`
models the exception thrown for an unparseable date. -/
def resolvePublishDate (dateParam : Option String) (nowMs : Int) : Option String :=
  match dateParam with
  | some p => if p = "" then some (getISTDateStringOfMs nowMs) else getISTDateStringOfInput p
  | none => some (getISTDateStringOfMs nowMs)

inductive PublishResult where
  | unauthorized       -- 401 Unauthorized
  | missingFields      -- 400 Missing required fields
  | photoRequired      -- 400 Photo is required for new content
  | serverError        -- 500 Failed to publish content
  | published          -- 200, "Content published" (insert)
  | updated            -- 200, "Content updated" (full-document update)
deriving DecidableEq

/-- The contentData document assembled by the route (lines 231-252), with the
comic fields coerced to strings. -/
def buildContent (date headline label : String) (blob : List Nat)
    (api : ApiContent) : Edition :=
  { date := date
    headline := headline
    photo := { imageBlob := blob, label := label }
    poem := api.poem
    joke := api.joke
    activity := api.activity
    catFact := api.catFact
    dogFact := api.dogFact
    triviaFact := api.triviaFact
    comic := { imageUrl := jsOrString api.comic.imageUrl ""
               altText := jsOrString api.comic.altText "Unable to load comic" } }

/-- Model of POST /api/publish.  Mirrors the route's order: auth, dbConnect,
date resolution, headline/label validation, adapter fan-out, photo
resolution (a new upload is compressed; otherwise the existing document's
bytes are reused; else 400), then insert or full update.  The last component
records whether fetchAllContent ran, i.e. whether the seven adapter
endpoints were fetched.  A missing headline or label is modelled by `""`
(formData.get returns null, and both null and "" are falsy); `compressImage`
is the sharp-based compressor, passed as an opaque function. -/
def publishPOST (envPassword : Option String) (nowSec nowMs : Int) (dbOk : Bool)
    (header : Option AuthHeader) (dateParam : Option String)
    (headline label : String) (photoFile : Option (List Nat))
    (api : ApiContent) (compressImage : List Nat → List Nat)
    (store : List Edition) : PublishResult × List Edition × Bool :=
  if !verifyAdminAccess header envPassword nowSec then (.unauthorized, store, false)
  else if !dbOk then (.serverError, store, false)
  else
    match resolvePublishDate dateParam nowMs with
    | none => (.serverError, store, false)
    | some date =>
      if headline = "" ∨ label = "" then (.missingFields, store, false)
      else
        -- fetchAllContent runs here: every outcome below has fetched the adapters
        match
          (match photoFile with
           | some bytes => some (compressImage bytes)
           | none =>
             -- a stored photo always has (truthy) imageBlob bytes, so the
             -- route's existing.photo.imageBlob check is existence
             match findOneByDate store date with
             | some existing => some existing.photo.imageBlob
             | none => none) with
        | none => (.photoRequired, store, true)
        | some blob =>
          match findOneByDate store date with
          | some _ => (.updated, updateFirst store date (buildContent date headline label blob api), true)
          | none => (.published, store ++ [buildContent date headline label blob api], true)

/-- Number of stored documents keyed by a given date. -/
def countDate (store : List Edition) (d : String) : Nat :=
  (store.filter (fun e => e.date == d)).length

theorem findOne_none_count (s : List Edition) (d : String)
    (h : findOneByDate s d = none) : countDate s d = 0 := by
  induction s with
  | nil => rfl
  | cons x xs ih =>
    unfold findOneByDate at h ih
    unfold countDate at ih ⊢
    rw [List.find?_cons] at h
    split at h
    · exact absurd h (by simp)
    · rename_i hx
      rw [List.filter_cons, if_neg (by simpa using hx)]
      exact ih h

theorem findOne_some_count (s : List Edition) (d : String) (e : Edition)
    (h : findOneByDate s d = some e) : 1 ≤ countDate s d := by
  induction s with
  | nil => simp [findOneByDate] at h
  | cons x xs ih =>
    unfold findOneByDate at h ih
    unfold countDate at ih ⊢
    rw [List.find?_cons] at h
    split at h
    · rename_i hx
      rw [List.filter_cons, if_pos hx]
      simp
    · rename_i hx
      rw [List.filter_cons, if_neg (by simpa using hx)]
      exact ih h

theorem count_append_match (s : List Edition) (d : String) (e : Edition)
    (he : e.date = d) : countDate (s ++ [e]) d = countDate s d + 1 := by
  unfold countDate
  rw [List.filter_append]
  simp [he]

theorem count_updateFirst (s : List Edition) (d : String) (e : Edition)
    (he : e.date = d) : countDate (updateFirst s d e) d = countDate s d := by
  induction s with
  | nil => rfl
  | cons x xs ih =>
    unfold updateFirst countDate
    unfold countDate at ih
    by_cases hx : x.date == d
    · rw [if_pos hx, List.filter_cons, List.filter_cons, if_pos hx, if_pos (by simp [he])]
      simp
    · rw [if_neg hx, List.filter_cons, List.filter_cons, if_neg hx, if_neg hx]
      simpa using ih

theorem updateFirst_length (s : List Edition) (d : String) (e : Edition) :
    (updateFirst s d e).length = s.length := by
  induction s with
  | nil => rfl
  | cons x xs ih =>
    unfold updateFirst
    split
    · simp
    · simpa using ih

theorem findOne_updateFirst (s : List Edition) (d : String) (e ex : Edition)
    (he : e.date = d) (hex : findOneByDate s d = some ex) :
    findOneByDate (updateFirst s d e) d = some e := by
  induction s with
  | nil => simp [findOneByDate] at hex
  | cons x xs ih =>
    unfold updateFirst
    unfold findOneByDate at hex ih ⊢
    by_cases hx : x.date == d
    · rw [if_pos hx]
      exact List.find?_cons_of_pos _ (by simp [he])
    · rw [if_neg hx, List.find?_cons_of_neg _ (by simpa using hx)]
      rw [List.find?_cons_of_neg _ (by simpa using hx)] at hex
      exact ih hex

theorem findOne_append_new (s : List Edition) (d : String) (e : Edition)
    (hn : findOneByDate s d = none) (he : e.date = d) :
    findOneByDate (s ++ [e]) d = some e := by
  unfold findOneByDate at hn ⊢
  rw [List.find?_append, hn]
  show List.find? (fun e => e.date == d) [e] = some e
  exact List.find?_cons_of_pos _ (by simp [he])

/-- Shape of a successful publish: an insert on a date with no document, or a
full-document update of the first existing one; in both cases the stored
document is the assembled contentData. -/
theorem publishPOST_ok (env : Option String) (nowSec nowMs : Int) (dbOk : Bool)
    (header : Option AuthHeader) (dateParam : Option String)
    (headline label : String) (photoFile : Option (List Nat))
    (api : ApiContent) (cmp : List Nat → List Nat) (store : List Edition)
    (r : PublishResult) (s' : List Edition) (f : Bool) (d : String)
    (hres : resolvePublishDate dateParam nowMs = some d)
    (hp : publishPOST env nowSec nowMs dbOk header dateParam headline label photoFile
      api cmp store = (r, s', f))
    (hok : r = .published ∨ r = .updated) :
    ∃ blob,
      (r = .published ∧ findOneByDate store d = none ∧
        s' = store ++ [buildContent d headline label blob api]) ∨
      (r = .updated ∧ (∃ ex, findOneByDate store d = some ex) ∧
        s' = updateFirst store d (buildContent d headline label blob api)) := by
  unfold publishPOST at hp
  split at hp
  · simp only [Prod.mk.injEq] at hp
    obtain ⟨rfl, -, -⟩ := hp
    rcases hok with h | h <;> exact absurd h (by decide)
  · split at hp
    · simp only [Prod.mk.injEq] at hp
      obtain ⟨rfl, -, -⟩ := hp
      rcases hok with h | h <;> exact absurd h (by decide)
    · split at hp
      · rename_i heq
        rw [hres] at heq
        exact absurd heq (by simp)
      · rename_i date heq
        rw [hres] at heq
        have hdd : date = d := (Option.some.inj heq).symm
        subst hdd
        split at hp
        · simp only [Prod.mk.injEq] at hp
          obtain ⟨rfl, -, -⟩ := hp
          rcases hok with h | h <;> exact absurd h (by decide)
        · split at hp
          · simp only [Prod.mk.injEq] at hp
            obtain ⟨rfl, -, -⟩ := hp
            rcases hok with h | h <;> exact absurd h (by decide)
          · rename_i blob hblob
            split at hp
            · rename_i ex hex
              simp only [Prod.mk.injEq] at hp
              obtain ⟨rfl, rfl, rfl⟩ := hp
              exact ⟨blob, Or.inr ⟨rfl, ⟨ex, hex⟩, rfl⟩⟩
            · rename_i hnone
              simp only [Prod.mk.injEq] at hp
              obtain ⟨rfl, rfl, rfl⟩ := hp
              exact ⟨blob, Or.inl ⟨rfl, hnone, rfl⟩⟩

theorem count_pos_findOne (s : List Edition) (d : String) (h : 1 ≤ countDate s d) :
    ∃ e, findOneByDate s d = some e := by
  cases hf : findOneByDate s d with
  | none => rw [findOne_none_count s d hf] at h; omega
  | some e => exact ⟨e, rfl⟩

/-- Reduction of an authenticated, validated publish to its photo-resolution
and upsert step. -/
theorem publishPOST_reduce (env : Option String) (nowSec nowMs : Int)
    (header : Option AuthHeader) (dateParam : Option String)
    (headline label : String) (photoFile : Option (List Nat))
    (api : ApiContent) (cmp : List Nat → List Nat) (store : List Edition) (d : String)
    (hauth : verifyAdminAccess header env nowSec = true)
    (hres : resolvePublishDate dateParam nowMs = some d)
    (hhl : ¬ headline = "") (hlb : ¬ label = "") :
    publishPOST env nowSec nowMs true header dateParam headline label photoFile
      api cmp store =
    match
      (match photoFile with
       | some bytes => some (cmp bytes)
       | none =>
         match findOneByDate store d with
         | some existing => some existing.photo.imageBlob
         | none => none) with
    | none => (.photoRequired, store, true)
    | some blob =>
      match findOneByDate store d with
      | some _ => (.updated, updateFirst store d (buildContent d headline label blob api), true)
      | none => (.published, store ++ [buildContent d headline label blob api], true) := by
  unfold publishPOST
  rw [if_neg (by simp [hauth]), if_neg (by simp), hres]
  show (if headline = "" ∨ label = "" then (PublishResult.missingFields, store, false) else _) = _
  rw [if_neg (by tauto)]

/-- C1: publishing twice in succession for the same canonical date leaves
exactly one stored document for that date; the second run performs a
full-document update (reported as "Content updated", inserting nothing), and
the document for that date afterwards is the contentData assembled by the
second run. -/
theorem publish_twice_unique (env : Option String) (now1s now1m now2s now2m : Int)
    (db1 db2 : Bool) (h1 h2 : Option AuthHeader) (dp1 dp2 : Option String)
    (hl1 lb1 hl2 lb2 : String) (pf1 pf2 : Option (List Nat))
    (api1 api2 : ApiContent) (cmp1 cmp2 : List Nat → List Nat)
    (store s1 s2 : List Edition) (d : String) (r1 r2 : PublishResult) (f1 f2 : Bool)
    (huniq : countDate store d ≤ 1)
    (hd1 : resolvePublishDate dp1 now1m = some d)
    (hd2 : resolvePublishDate dp2 now2m = some d)
    (hp1 : publishPOST env now1s now1m db1 h1 dp1 hl1 lb1 pf1 api1 cmp1 store = (r1, s1, f1))
    (hok1 : r1 = .published ∨ r1 = .updated)
    (hp2 : publishPOST env now2s now2m db2 h2 dp2 hl2 lb2 pf2 api2 cmp2 s1 = (r2, s2, f2))
    (hok2 : r2 = .published ∨ r2 = .updated) :
    countDate s2 d = 1 ∧ r2 = .updated ∧ s2.length = s1.length ∧
      ∃ blob, findOneByDate s2 d = some (buildContent d hl2 lb2 blob api2) := by
  have hcount1 : countDate s1 d = 1 := by
    obtain ⟨blob, hcase⟩ := publishPOST_ok env now1s now1m db1 h1 dp1 hl1 lb1 pf1
      api1 cmp1 store r1 s1 f1 d hd1 hp1 hok1
    rcases hcase with ⟨-, hnone, rfl⟩ | ⟨-, ⟨ex, hex⟩, rfl⟩
    · rw [count_append_match store d _ rfl, findOne_none_count store d hnone]
    · rw [count_updateFirst store d _ rfl]
      have := findOne_some_count store d ex hex
      omega
  obtain ⟨e1, he1⟩ := count_pos_findOne s1 d (by omega)
  obtain ⟨blob, hcase⟩ := publishPOST_ok env now2s now2m db2 h2 dp2 hl2 lb2 pf2
    api2 cmp2 s1 r2 s2 f2 d hd2 hp2 hok2
  rcases hcase with ⟨-, hnone, rfl⟩ | ⟨hr2, ⟨ex, hex⟩, rfl⟩
  · rw [hnone] at he1
    exact absurd he1 (by simp)
  · refine ⟨?_, hr2, updateFirst_length s1 d _, blob, ?_⟩
    · rw [count_updateFirst s1 d _ rfl]
      exact hcount1
    · exact findOne_updateFirst s1 d _ ex rfl hex

/-- C2: an authenticated, validated publish without a photo upload is
rejected with 400 and writes nothing when no edition exists for the resolved
date; when an edition exists, the publish succeeds as an update and the
stored photo bytes afterwards are exactly the bytes stored before. -/
theorem publish_no_photo (env : Option String) (nowSec nowMs : Int)
    (header : Option AuthHeader) (dateParam : Option String)
    (headline label : String) (api : ApiContent) (cmp : List Nat → List Nat)
    (store : List Edition) (d : String)
    (hauth : verifyAdminAccess header env nowSec = true)
    (hres : resolvePublishDate dateParam nowMs = some d)
    (hhl : ¬ headline = "") (hlb : ¬ label = "") :
    (findOneByDate store d = none →
      publishPOST env nowSec nowMs true header dateParam headline label none
        api cmp store = (.photoRequired, store, true)) ∧
    (∀ ex, findOneByDate store d = some ex →
      publishPOST env nowSec nowMs true header dateParam headline label none
        api cmp store =
        (.updated, updateFirst store d
          (buildContent d headline label ex.photo.imageBlob api), true) ∧
      ∃ e', findOneByDate (updateFirst store d
          (buildContent d headline label ex.photo.imageBlob api)) d = some e' ∧
        e'.photo.imageBlob = ex.photo.imageBlob) := by
  constructor
  · intro hnone
    rw [publishPOST_reduce env nowSec nowMs header dateParam headline label none
      api cmp store d hauth hres hhl hlb, hnone]
  · intro ex hex
    constructor
    · rw [publishPOST_reduce env nowSec nowMs header dateParam headline label none
        api cmp store d hauth hres hhl hlb, hex]
    · exact ⟨_, findOne_updateFirst store d _ ex rfl hex, rfl⟩

/-- Concrete adapter content used in witnesses and counterexamples. -/
def apiContent0 : ApiContent :=
  { poem := ⟨"Silence", "Unknown", ["In quiet moments"]⟩
    joke := .single "Why did the chicken cross the road?"
    activity := ⟨"take a moment to breathe and relax"⟩
    catFact := ⟨"cat fact"⟩
    dogFact := ⟨"dog fact"⟩
    triviaFact := ⟨"trivia fact"⟩
    comic := ⟨none, some "Unable to load comic"⟩ }

/-- A well-formed Bearer header carrying a token signed with "pw" that
expires at second 1. -/
def header0 : Option AuthHeader := some ⟨true, some ⟨true, 1, "pw"⟩⟩

/-- An edition already stored for 2025-07-03. -/
def edition0 : Edition := buildContent "2025-07-03" "Old headline" "Old label" [7, 7] apiContent0

/-- Witness for C1: two concrete successful publishes for 2025-07-03. -/
theorem publish_twice_unique_witness :
    countDate
      (updateFirst ([] ++ [buildContent "2025-07-03" "H1" "L1" [1] apiContent0])
        "2025-07-03" (buildContent "2025-07-03" "H2" "L2" [2] apiContent0))
      "2025-07-03" = 1 ∧
    PublishResult.updated = PublishResult.updated ∧
    (updateFirst ([] ++ [buildContent "2025-07-03" "H1" "L1" [1] apiContent0])
        "2025-07-03" (buildContent "2025-07-03" "H2" "L2" [2] apiContent0)).length =
      ([] ++ [buildContent "2025-07-03" "H1" "L1" [1] apiContent0]).length ∧
    ∃ blob,
      findOneByDate
        (updateFirst ([] ++ [buildContent "2025-07-03" "H1" "L1" [1] apiContent0])
          "2025-07-03" (buildContent "2025-07-03" "H2" "L2" [2] apiContent0))
        "2025-07-03" = some (buildContent "2025-07-03" "H2" "L2" blob apiContent0) := by
  have h := publish_twice_unique (some "pw") 0 0 0 0 true true header0 header0
    (some "2025-07-03") (some "2025-07-03") "H1" "L1" "H2" "L2"
    (some [1]) (some [2]) apiContent0 apiContent0 (fun b => b) (fun b => b)
    [] ([] ++ [buildContent "2025-07-03" "H1" "L1" [1] apiContent0])
    (updateFirst ([] ++ [buildContent "2025-07-03" "H1" "L1" [1] apiContent0])
      "2025-07-03" (buildContent "2025-07-03" "H2" "L2" [2] apiContent0))
    "2025-07-03" .published .updated true true
    (by decide) (by decide) (by decide) (by decide) (Or.inl rfl) (by decide) (Or.inr rfl)
  exact ⟨h.1, rfl, h.2.2.1, h.2.2.2⟩

/-- Witness for C2: rejecting on an empty store, reusing bytes on a store
holding an edition for the date. -/
theorem publish_no_photo_witness :
    publishPOST (some "pw") 0 0 true header0 (some "2025-07-03") "H" "L" none
      apiContent0 (fun b => b) [] = (.photoRequired, [], true) ∧
    (publishPOST (some "pw") 0 0 true header0 (some "2025-07-03") "H" "L" none
      apiContent0 (fun b => b) [edition0] =
      (.updated, updateFirst [edition0] "2025-07-03"
        (buildContent "2025-07-03" "H" "L" edition0.photo.imageBlob apiContent0), true) ∧
    ∃ e', findOneByDate (updateFirst [edition0] "2025-07-03"
        (buildContent "2025-07-03" "H" "L" edition0.photo.imageBlob apiContent0))
        "2025-07-03" = some e' ∧
      e'.photo.imageBlob = edition0.photo.imageBlob) := by
  constructor
  · exact (publish_no_photo (some "pw") 0 0 header0 (some "2025-07-03") "H" "L"
      apiContent0 (fun b => b) [] "2025-07-03" (by decide) (by decide)
      (by decide) (by decide)).1 (by decide)
  · exact (publish_no_photo (some "pw") 0 0 header0 (some "2025-07-03") "H" "L"
      apiContent0 (fun b => b) [edition0] "2025-07-03" (by decide) (by decide)
      (by decide) (by decide)).2 edition0 (by decide)

/-- C3 (amended): a 400 for missing headline or label is produced before the
adapter fan-out (no adapter endpoint fetched, store untouched); the 400 for a
missing photo on first publish of a date is produced after the adapters have
already been fetched, though still before any store write. -/
theorem publish_validation_fetch_order (env : Option String) (nowSec nowMs : Int)
    (dbOk : Bool) (header : Option AuthHeader) (dateParam : Option String)
    (headline label : String) (photoFile : Option (List Nat))
    (api : ApiContent) (cmp : List Nat → List Nat) (store : List Edition)
    (r : PublishResult) (s' : List Edition) (f : Bool)
    (hp : publishPOST env nowSec nowMs dbOk header dateParam headline label photoFile
      api cmp store = (r, s', f)) :
    (r = .missingFields → f = false ∧ s' = store) ∧
    (r = .photoRequired → f = true ∧ s' = store) := by
  unfold publishPOST at hp
  split at hp
  · simp only [Prod.mk.injEq] at hp
    obtain ⟨rfl, rfl, rfl⟩ := hp
    exact ⟨fun h => absurd h (by decide), fun h => absurd h (by decide)⟩
  · split at hp
    · simp only [Prod.mk.injEq] at hp
      obtain ⟨rfl, rfl, rfl⟩ := hp
      exact ⟨fun h => absurd h (by decide), fun h => absurd h (by decide)⟩
    · split at hp
      · simp only [Prod.mk.injEq] at hp
        obtain ⟨rfl, rfl, rfl⟩ := hp
        exact ⟨fun h => absurd h (by decide), fun h => absurd h (by decide)⟩
      · split at hp
        · simp only [Prod.mk.injEq] at hp
          obtain ⟨rfl, rfl, rfl⟩ := hp
          exact ⟨fun _ => ⟨rfl, rfl⟩, fun h => absurd h (by decide)⟩
        · split at hp
          · simp only [Prod.mk.injEq] at hp
            obtain ⟨rfl, rfl, rfl⟩ := hp
            exact ⟨fun h => absurd h (by decide), fun _ => ⟨rfl, rfl⟩⟩
          · split at hp
            · simp only [Prod.mk.injEq] at hp
              obtain ⟨rfl, rfl, rfl⟩ := hp
              exact ⟨fun h => absurd h (by decide), fun h => absurd h (by decide)⟩
            · simp only [Prod.mk.injEq] at hp
              obtain ⟨rfl, rfl, rfl⟩ := hp
              exact ⟨fun h => absurd h (by decide), fun h => absurd h (by decide)⟩

/-- Counterexample to C3 as stated: this publish request ends in a validation
error — 400, photo required on first publish — yet its run has fetched the
seven adapter endpoints (third component true): the photo check sits after
fetchAllContent in the route. -/
theorem publish_photo400_after_fetch :
    publishPOST (some "pw") 0 0 true header0 (some "2025-07-03") "Headline" "Label"
      none apiContent0 (fun b => b) [] = (.photoRequired, [], true) ∧
    ¬ ((.photoRequired, ([] : List Edition), true)
        = (PublishResult.photoRequired, ([] : List Edition), false)) := by
  constructor
  · decide
  · decide

/-- Witness for the amended C3 at a concrete run ending in each 400. -/
theorem publish_validation_fetch_order_witness :
    ((PublishResult.missingFields = PublishResult.missingFields → false = false ∧
        ([] : List Edition) = []) ∧
      (PublishResult.missingFields = PublishResult.photoRequired → false = true ∧
        ([] : List Edition) = [])) ∧
    ((PublishResult.photoRequired = PublishResult.missingFields → true = false ∧
        ([] : List Edition) = []) ∧
      (PublishResult.photoRequired = PublishResult.photoRequired → true = true ∧
        ([] : List Edition) = [])) := by
  constructor
  · exact publish_validation_fetch_order (some "pw") 0 0 true header0
      (some "2025-07-03") "" "L" none apiContent0 (fun b => b) [] .missingFields [] false
      (by decide)
  · exact publish_validation_fetch_order (some "pw") 0 0 true header0
      (some "2025-07-03") "H" "L" none apiContent0 (fun b => b) [] .photoRequired [] true
      (by decide)

/-- C10: every persisted edition's comic has string fields obtained by the
route's coercion: imageUrl becomes "" when the adapter reported null, and
altText falls back to "Unable to load comic"; in particular the adapter's
documented fallback (null imageUrl) is stored as ⟨"", "Unable to load comic"⟩,
never as null. -/
theorem publish_comic_stored (env : Option String) (nowSec nowMs : Int) (dbOk : Bool)
    (header : Option AuthHeader) (dateParam : Option String)
    (headline label : String) (photoFile : Option (List Nat))
    (api : ApiContent) (cmp : List Nat → List Nat) (store : List Edition)
    (r : PublishResult) (s' : List Edition) (f : Bool) (d : String)
    (hres : resolvePublishDate dateParam nowMs = some d)
    (hp : publishPOST env nowSec nowMs dbOk header dateParam headline label photoFile
      api cmp store = (r, s', f))
    (hok : r = .published ∨ r = .updated) :
    ∃ e, findOneByDate s' d = some e ∧
      e.comic = ⟨jsOrString api.comic.imageUrl "",
        jsOrString api.comic.altText "Unable to load comic"⟩ ∧
      (api.comic = ⟨none, some "Unable to load comic"⟩ →
        e.comic = ⟨"", "Unable to load comic"⟩) := by
  obtain ⟨blob, hcase⟩ := publishPOST_ok env nowSec nowMs dbOk header dateParam
    headline label photoFile api cmp store r s' f d hres hp hok
  rcases hcase with ⟨-, hnone, rfl⟩ | ⟨-, ⟨ex, hex⟩, rfl⟩
  · refine ⟨_, findOne_append_new store d _ hnone rfl, rfl, ?_⟩
    intro hc
    simp [buildContent, jsOrString, hc]
  · refine ⟨_, findOne_updateFirst store d _ ex rfl hex, rfl, ?_⟩
    intro hc
    simp [buildContent, jsOrString, hc]

/-- Witness for C10 at a concrete publish whose comic adapter fell back. -/
theorem publish_comic_stored_witness :
    ∃ e, findOneByDate ([] ++ [buildContent "2025-07-03" "H" "L" [1] apiContent0])
        "2025-07-03" = some e ∧
      e.comic = ⟨jsOrString apiContent0.comic.imageUrl "",
        jsOrString apiContent0.comic.altText "Unable to load comic"⟩ ∧
      (apiContent0.comic = ⟨none, some "Unable to load comic"⟩ →
        e.comic = ⟨"", "Unable to load comic"⟩) :=
  publish_comic_stored (some "pw") 0 0 true header0 (some "2025-07-03") "H" "L"
    (some [1]) apiContent0 (fun b => b) [] .published
    ([] ++ [buildContent "2025-07-03" "H" "L" [1] apiContent0]) true "2025-07-03"
    (by decide) (by decide) (Or.inl rfl)

/-- C8: login with the correct administrator password issues a token signed
with the admin secret carrying a 7-day validity window; the Authorization
Guard (a total boolean function — it never throws) accepts that token at
issuance time and rejects it at any time from expiry onwards; login with a
wrong password yields the 401 result and no token. -/
theorem login_token_lifecycle (pw wrong : String) (nowSec laterSec : Int)
    (hw : wrong ≠ pw) (hlater : nowSec + 7 * 24 * 60 * 60 ≤ laterSec) :
    loginPOST (some pw) (some pw) nowSec =
      .ok ⟨true, nowSec + 7 * 24 * 60 * 60, pw⟩ ∧
    verifyAdminAccess (some ⟨true, some ⟨true, nowSec + 7 * 24 * 60 * 60, pw⟩⟩)
      (some pw) nowSec = true ∧
    verifyAdminAccess (some ⟨true, some ⟨true, nowSec + 7 * 24 * 60 * 60, pw⟩⟩)
      (some pw) laterSec = false ∧
    loginPOST (some pw) (some wrong) nowSec = .invalid := by
  refine ⟨?_, ?_, ?_, ?_⟩
  · simp [loginPOST]
  · simp [verifyAdminAccess, jwtVerify]
  · simp [verifyAdminAccess, jwtVerify]
    omega
  · simp [loginPOST, hw]

/-- Witness for C8 at a concrete password and clock. -/
theorem login_token_lifecycle_witness :
    loginPOST (some "pw") (some "pw") 0 = .ok ⟨true, 0 + 7 * 24 * 60 * 60, "pw"⟩ ∧
    verifyAdminAccess (some ⟨true, some ⟨true, 0 + 7 * 24 * 60 * 60, "pw"⟩⟩)
      (some "pw") 0 = true ∧
    verifyAdminAccess (some ⟨true, some ⟨true, 0 + 7 * 24 * 60 * 60, "pw"⟩⟩)
      (some "pw") 604800 = false ∧
    loginPOST (some "pw") (some "wrong") 0 = .invalid :=
  login_token_lifecycle "pw" "wrong" 0 604800 (by decide) (by decide)

/-! ## Comic scraper (src/app/api/comic/route.ts) -/

/-- The fields of one parsed JSON-LD object that the route reads (a field
that is absent or not a string is `none`). -/
structure LdEntry where
  atType : Option String
  contentUrl : Option String
  datePublished : Option String
  name : Option String
  description : Option String
deriving DecidableEq

/-- One script[type="application/ld+json"] block: `malformed` models a body
on which JSON.parse throws (the route silently skips it). -/
inductive LdBlock where
  | malformed
  | ok (e : LdEntry)
deriving DecidableEq

/-- JavaScript truthiness of a string-or-missing value. -/
def jsTruthy : Option String → Bool
  | some s => !(s == "")
  | none => false

def urlOf : LdBlock → Option String
  | .malformed => none
  | .ok e => e.contentUrl

/-- `data.name || data.description || ""`. -/
def altOf : LdBlock → String
  | .malformed => ""
  | .ok e => jsOrString e.name (jsOrString e.description "")

/-- The condition selecting today's strip. -/
def isTodayMatch (today : String) : LdBlock → Bool
  | .malformed => false
  | .ok e => e.atType == some "ImageObject" && jsTruthy e.contentUrl
      && e.datePublished == some today

/-- The condition of the fallback branch (one day earlier). -/
def isYestMatch (yesterday : String) : LdBlock → Bool
  | .malformed => false
  | .ok e => e.atType == some "ImageObject" && jsTruthy e.contentUrl
      && e.datePublished == some yesterday

/-- One iteration of the route's each-loop over the JSON-LD blocks. -/
def comicStep (today yesterday : String) (acc : Option String × Option String)
    (b : LdBlock) : Option String × Option String :=
  if isTodayMatch today b then (urlOf b, some (altOf b))
  else if acc.1.isNone && isYestMatch yesterday b then (urlOf b, some (altOf b))
  else acc

def comicScan (today yesterday : String) (blocks : List LdBlock) :
    Option String × Option String :=
  blocks.foldl (comicStep today yesterday) (none, none)

def monthName (m : Int) : String :=
  if m = 1 then "January" else if m = 2 then "February" else if m = 3 then "March"
  else if m = 4 then "April" else if m = 5 then "May" else if m = 6 then "June"
  else if m = 7 then "July" else if m = 8 then "August" else if m = 9 then "September"
  else if m = 10 then "October" else if m = 11 then "November" else "December"

/-- `toLocaleDateString("en-US", {year: "numeric", month: "long", day:
"numeric"})`: "July 2, 2025". -/
def longDateFormat (t : Int × Int × Int) : String :=
  monthName t.2.1 ++ " " ++ toString t.2.2.toNat ++ ", " ++ toString t.1.toNat

def comicCurrentDate (nowMs : Int) : String :=
  longDateFormat (civilFromDays (nowMs / 86400000))

def comicYesterdayDate (nowMs : Int) : String :=
  longDateFormat (civilFromDays ((nowMs - 86400000) / 86400000))

def comicSources : List String :=
  ["https://www.gocomics.com/garfield", "https://www.gocomics.com/calvinandhobbes",
   "https://www.gocomics.com/peanuts", "https://www.gocomics.com/bc"]

structure ComicResp where
  status : Nat
  imageUrl : Option String
  altText : Option String
  source : Option String
deriving DecidableEq

/-- The fixed fallback body, served with status 500. -/
def comicFallbackResp : ComicResp := ⟨500, none, some "Unable to load comic", none⟩

/-- The upstream outcome of fetching the comic page: network failure, or a
response with its HTTP ok-flag and the JSON-LD blocks found in the HTML (an
unparseable or block-free page simply yields no blocks). -/
inductive ComicUpstream where
  | netErr
  | resp (ok : Bool) (blocks : List LdBlock)
deriving DecidableEq

/-- Model of GET /api/comic.  `srcIdx` stands for the random source choice. -/
def comicGET (u : ComicUpstream) (nowMs : Int) (srcIdx : Nat) : ComicResp :=
  match u with
  | .netErr => comicFallbackResp
  | .resp ok blocks =>
    if !ok then comicFallbackResp
    else
      let r := comicScan (comicCurrentDate nowMs) (comicYesterdayDate nowMs) blocks
      if jsTruthy r.1 then ⟨200, r.1, r.2, some (comicSources.getD (srcIdx % 4) "")⟩
      else comicFallbackResp

theorem match_truthy_url (today : String) (b : LdBlock)
    (h : isTodayMatch today b = true) : jsTruthy (urlOf b) = true := by
  cases b with
  | malformed => simp [isTodayMatch] at h
  | ok e =>
    simp only [isTodayMatch, Bool.and_eq_true] at h
    exact h.1.2

theorem yest_truthy_url (yesterday : String) (b : LdBlock)
    (h : isYestMatch yesterday b = true) : jsTruthy (urlOf b) = true := by
  cases b with
  | malformed => simp [isYestMatch] at h
  | ok e =>
    simp only [isYestMatch, Bool.and_eq_true] at h
    exact h.1.2

theorem scan_preserve (today yesterday : String) (blocks : List LdBlock)
    (acc : Option String × Option String)
    (hno : ∀ b ∈ blocks, isTodayMatch today b = false)
    (hacc : acc.1.isNone = false) :
    blocks.foldl (comicStep today yesterday) acc = acc := by
  induction blocks with
  | nil => rfl
  | cons b bs ih =>
    rw [List.foldl_cons]
    rw [show comicStep today yesterday acc b = acc from by
      unfold comicStep
      rw [if_neg (by simp [hno b (by simp)]), if_neg (by simp [hacc])]]
    exact ih (fun x hx => hno x (by simp [hx]))

theorem scan_no_match (today yesterday : String) (blocks : List LdBlock)
    (hnt : ∀ b ∈ blocks, isTodayMatch today b = false)
    (hny : ∀ b ∈ blocks, isYestMatch yesterday b = false) :
    comicScan today yesterday blocks = (none, none) := by
  unfold comicScan
  induction blocks with
  | nil => rfl
  | cons b bs ih =>
    rw [List.foldl_cons]
    rw [show comicStep today yesterday (none, none) b = (none, none) from by
      unfold comicStep
      rw [if_neg (by simp [hnt b (by simp)]), if_neg (by simp [hny b (by simp)])]]
    exact ih (fun x hx => hnt x (by simp [hx])) (fun x hx => hny x (by simp [hx]))

theorem scan_today_unique (today yesterday : String) (blocks : List LdBlock)
    (b0 : LdBlock) (hf : blocks.filter (isTodayMatch today) = [b0]) :
    ∀ acc, blocks.foldl (comicStep today yesterday) acc = (urlOf b0, some (altOf b0)) := by
  induction blocks with
  | nil => simp at hf
  | cons b bs ih =>
    intro acc
    rw [List.filter_cons] at hf
    rw [List.foldl_cons]
    by_cases hb : isTodayMatch today b = true
    · rw [if_pos hb] at hf
      have hb0 : b = b0 ∧ bs.filter (isTodayMatch today) = [] := by
        constructor
        · exact (List.cons.injEq _ _ _ _ ▸ hf).1
        · exact (List.cons.injEq _ _ _ _ ▸ hf).2
      rw [show comicStep today yesterday acc b = (urlOf b, some (altOf b)) from by
        unfold comicStep
        rw [if_pos hb]]
      rw [hb0.1]
      exact scan_preserve today yesterday bs _
        (fun x hx => by
          have := hb0.2
          rw [List.filter_eq_nil_iff] at this
          simpa using this x hx)
        (by
          have := match_truthy_url today b0 (hb0.1 ▸ hb)
          cases hu : urlOf b0 with
          | none => rw [hu] at this; simp [jsTruthy] at this
          | some s => simp)
    · rw [if_neg hb] at hf
      exact ih hf _

theorem scan_yest_unique (today yesterday : String) (blocks : List LdBlock)
    (b0 : LdBlock) (hnt : blocks.filter (isTodayMatch today) = [])
    (hf : blocks.filter (isYestMatch yesterday) = [b0]) :
    comicScan today yesterday blocks = (urlOf b0, some (altOf b0)) := by
  unfold comicScan
  induction blocks with
  | nil => simp at hf
  | cons b bs ih =>
    rw [List.filter_cons] at hf hnt
    have hbt : isTodayMatch today b = false := by
      by_contra hc
      rw [if_pos (by simpa using hc)] at hnt
      simp at hnt
    rw [if_neg (by simp [hbt])] at hnt
    rw [List.foldl_cons]
    by_cases hb : isYestMatch yesterday b = true
    · rw [if_pos hb] at hf
      have hb0 : b = b0 ∧ bs.filter (isYestMatch yesterday) = [] := by
        constructor
        · exact (List.cons.injEq _ _ _ _ ▸ hf).1
        · exact (List.cons.injEq _ _ _ _ ▸ hf).2
      rw [show comicStep today yesterday (none, none) b = (urlOf b, some (altOf b)) from by
        unfold comicStep
        rw [if_neg (by simp [hbt]), if_pos (by simp [hb])]]
      rw [hb0.1]
      refine scan_preserve today yesterday bs _
        (fun x hx => by
          rw [List.filter_eq_nil_iff] at hnt
          simpa using hnt x hx) ?_
      have := yest_truthy_url yesterday b0 (hb0.1 ▸ hb)
      cases hu : urlOf b0 with
      | none => rw [hu] at this; simp [jsTruthy] at this
      | some s => simp
    · rw [if_neg hb] at hf
      rw [show comicStep today yesterday (none, none) b = (none, none) from by
        unfold comicStep
        rw [if_neg (by simp [hbt]), if_neg (by simp [hb])]]
      exact ih hnt hf

theorem comicGET_resp_true (nowMs : Int) (srcIdx : Nat) (blocks : List LdBlock) :
    comicGET (.resp true blocks) nowMs srcIdx =
      (if jsTruthy (comicScan (comicCurrentDate nowMs) (comicYesterdayDate nowMs) blocks).1
       then ⟨200, (comicScan (comicCurrentDate nowMs) (comicYesterdayDate nowMs) blocks).1,
         (comicScan (comicCurrentDate nowMs) (comicYesterdayDate nowMs) blocks).2,
         some (comicSources.getD (srcIdx % 4) "")⟩
       else comicFallbackResp) := rfl

/-- C5: on a successfully fetched page, if the JSON-LD blocks contain exactly
one ImageObject entry with a truthy contentUrl dated today, the route returns
that entry's image URL (today is preferred regardless of any entry dated one
day earlier); if no entry is dated today and exactly one is dated one day
earlier, the route returns that entry's URL; if no entry matches either date,
the route returns the fixed fallback (null imageUrl, "Unable to load comic")
with status 500. -/
theorem comicGET_cases (nowMs : Int) (srcIdx : Nat) (blocks : List LdBlock)
    (e1 e2 : LdEntry) :
    (blocks.filter (isTodayMatch (comicCurrentDate nowMs)) = [.ok e1] →
      comicGET (.resp true blocks) nowMs srcIdx =
        ⟨200, e1.contentUrl, some (altOf (.ok e1)),
          some (comicSources.getD (srcIdx % 4) "")⟩) ∧
    (blocks.filter (isTodayMatch (comicCurrentDate nowMs)) = [] →
      blocks.filter (isYestMatch (comicYesterdayDate nowMs)) = [.ok e2] →
      comicGET (.resp true blocks) nowMs srcIdx =
        ⟨200, e2.contentUrl, some (altOf (.ok e2)),
          some (comicSources.getD (srcIdx % 4) "")⟩) ∧
    (blocks.filter (isTodayMatch (comicCurrentDate nowMs)) = [] →
      blocks.filter (isYestMatch (comicYesterdayDate nowMs)) = [] →
      comicGET (.resp true blocks) nowMs srcIdx = comicFallbackResp) := by
  refine ⟨?_, ?_, ?_⟩
  · intro h
    have hs : comicScan (comicCurrentDate nowMs) (comicYesterdayDate nowMs) blocks
        = (urlOf (.ok e1), some (altOf (.ok e1))) :=
      scan_today_unique _ _ blocks (.ok e1) h (none, none)
    have htr : isTodayMatch (comicCurrentDate nowMs) (.ok e1) = true :=
      List.of_mem_filter (by rw [h]; simp)
    have hurl := match_truthy_url _ _ htr
    rw [comicGET_resp_true, hs]
    simp only [urlOf] at hurl ⊢
    rw [if_pos (by simpa using hurl)]
  · intro hnt h
    have hs : comicScan (comicCurrentDate nowMs) (comicYesterdayDate nowMs) blocks
        = (urlOf (.ok e2), some (altOf (.ok e2))) :=
      scan_yest_unique _ _ blocks (.ok e2) hnt h
    have htr : isYestMatch (comicYesterdayDate nowMs) (.ok e2) = true :=
      List.of_mem_filter (by rw [h]; simp)
    have hurl := yest_truthy_url _ _ htr
    rw [comicGET_resp_true, hs]
    simp only [urlOf] at hurl ⊢
    rw [if_pos (by simpa using hurl)]
  · intro hnt hny
    rw [List.filter_eq_nil_iff] at hnt hny
    have hs := scan_no_match (comicCurrentDate nowMs) (comicYesterdayDate nowMs) blocks
      (fun b hb => by simpa using hnt b hb) (fun b hb => by simpa using hny b hb)
    rw [comicGET_resp_true, hs]
    rw [if_neg (by simp [jsTruthy])]

/-- Witness for C5: a one-block page dated today (at the epoch instant). -/
theorem comicGET_cases_witness :
    comicGET (.resp true
        [.ok ⟨some "ImageObject", some "https://assets.example/strip.png",
          some (comicCurrentDate 0), some "Garfield strip", none⟩]) 0 0 =
      ⟨200, some "https://assets.example/strip.png",
        some (altOf (.ok ⟨some "ImageObject", some "https://assets.example/strip.png",
          some (comicCurrentDate 0), some "Garfield strip", none⟩)),
        some (comicSources.getD (0 % 4) "")⟩ :=
  (comicGET_cases 0 0
    [.ok ⟨some "ImageObject", some "https://assets.example/strip.png",
      some (comicCurrentDate 0), some "Garfield strip", none⟩]
    ⟨some "ImageObject", some "https://assets.example/strip.png",
      some (comicCurrentDate 0), some "Garfield strip", none⟩
    ⟨none, none, none, none, none⟩).1 (by decide)

/-! ## The content-adapter routes over JSON values

Each route fetches one third-party endpoint, extracts a field or two from
the parsed JSON, and answers 200 with the extracted body or 500 with its
fixed fallback body when anything goes wrong (network error, non-2xx
status, a body on which response.json() throws, or a thrown TypeError while
extracting). -/

inductive JVal where
  | null
  | bool (b : Bool)
  | num (n : Int)
  | str (s : String)
  | arr (xs : List JVal)
  | obj (fields : List (String × JVal))

/-- JavaScript property access `v[k]`: throws (TypeError) on null; gives
undefined on primitives and missing keys. -/
def jsGetField (v : JVal) (k : String) : Except Unit (Option JVal) :=
  match v with
  | .null => .error ()
  | .obj fs => .ok ((fs.find? (fun p => p.1 == k)).map (fun p => p.2))
  | _ => .ok none

/-- Property access on a possibly-undefined value: throws on undefined. -/
def jsGetOpt (o : Option JVal) (k : String) : Except Unit (Option JVal) :=
  match o with
  | none => .error ()
  | some v => jsGetField v k

/-- JavaScript indexing `v[i]` on a possibly-undefined value. -/
def jsIndex (o : Option JVal) (i : Nat) : Except Unit (Option JVal) :=
  match o with
  | none => .error ()
  | some .null => .error ()
  | some (.arr xs) => .ok xs[i]?
  | some (.obj fs) => .ok ((fs.find? (fun p => p.1 == toString i)).map (fun p => p.2))
  | some _ => .ok none

/-- The outcome of `fetch` + `response.json()`: network rejection, or a
response with its ok-flag and parsed body (`none` when json() throws). -/
inductive Upstream where
  | netErr
  | resp (ok : Bool) (body : Option JVal)

structure JResp where
  status : Nat
  body : JVal

/-- `JSON.stringify` object field: an undefined value is dropped. -/
def jfield (k : String) (v : Option JVal) : JVal :=
  .obj (match v with | some x => [(k, x)] | none => [])

def ofield (k : String) (v : Option JVal) : List (String × JVal) :=
  match v with | some x => [(k, x)] | none => []

def getOr (e : Except Unit (Option JVal)) : Option JVal :=
  match e with | .ok v => v | .error _ => none

def catFactFallback : JVal :=
  .obj [("fact", .str "Cats sleep for 70% of their lives, which is 13-16 hours a day.")]

/-- GET /api/cat-fact. -/
def catFactGET (u : Upstream) : JResp :=
  match u with
  | .netErr => ⟨500, catFactFallback⟩
  | .resp ok body =>
    if !ok then ⟨500, catFactFallback⟩
    else
      match body with
      | none => ⟨500, catFactFallback⟩
      | some data =>
        match jsGetField data "fact" with
        | .error _ => ⟨500, catFactFallback⟩
        | .ok v => ⟨200, jfield "fact" v⟩

def triviaFactFallback : JVal :=
  .obj [("fact",
    .str "Honey never spoils. Archaeologists have found edible honey in ancient Egyptian tombs.")]

/-- GET /api/trivia-fact (reads `data.text`). -/
def triviaFactGET (u : Upstream) : JResp :=
  match u with
  | .netErr => ⟨500, triviaFactFallback⟩
  | .resp ok body =>
    if !ok then ⟨500, triviaFactFallback⟩
    else
      match body with
      | none => ⟨500, triviaFactFallback⟩
      | some data =>
        match jsGetField data "text" with
        | .error _ => ⟨500, triviaFactFallback⟩
        | .ok v => ⟨200, jfield "fact" v⟩

def dogFactFallback : JVal :=
  .obj [("fact",
    .str "Dogs have about 300 million olfactory receptors in their noses, compared to about 6 million in humans.")]

/-- The extraction `data.data[0].attributes.body`. -/
def dogFactExtract (data : JVal) : Except Unit (Option JVal) := do
  let d1 ← jsGetField data "data"
  let d2 ← jsIndex d1 0
  let d3 ← jsGetOpt d2 "attributes"
  jsGetOpt d3 "body"

/-- GET /api/dog-fact. -/
def dogFactGET (u : Upstream) : JResp :=
  match u with
  | .netErr => ⟨500, dogFactFallback⟩
  | .resp ok body =>
    if !ok then ⟨500, dogFactFallback⟩
    else
      match body with
      | none => ⟨500, dogFactFallback⟩
      | some data =>
        match dogFactExtract data with
        | .error _ => ⟨500, dogFactFallback⟩
        | .ok v => ⟨200, jfield "fact" v⟩

def jokeFallback : JVal :=
  .obj [("type", .str "single"),
    ("joke", .str "Why don't scientists trust atoms? Because they make up everything!")]

/-- GET /api/joke: the parsed body is passed through unchanged. -/
def jokeGET (u : Upstream) : JResp :=
  match u with
  | .netErr => ⟨500, jokeFallback⟩
  | .resp ok body =>
    if !ok then ⟨500, jokeFallback⟩
    else
      match body with
      | none => ⟨500, jokeFallback⟩
      | some data => ⟨200, data⟩

def activityFallback : JVal :=
  .obj [("activity", .str "take a moment to breathe and relax")]

/-- GET /api/activity: lower-cases `data.activity` (calling toLowerCase on a
missing or non-string value throws, yielding the fallback). -/
def activityGET (u : Upstream) : JResp :=
  match u with
  | .netErr => ⟨500, activityFallback⟩
  | .resp ok body =>
    if !ok then ⟨500, activityFallback⟩
    else
      match body with
      | none => ⟨500, activityFallback⟩
      | some data =>
        match jsGetField data "activity" with
        | .ok (some (.str s)) => ⟨200, .obj [("activity", .str s.toLower)]⟩
        | _ => ⟨500, activityFallback⟩

def poemFallback : JVal :=
  .obj [("title", .str "Silence"), ("author", .str "Unknown"),
    ("lines", .arr [.str "In quiet moments", .str "We find peace", .str "Within ourselves"])]

/-- Cleaning of one poem line: strip underscores, then collapse "--" to an
en dash. -/
def cleanLine (l : String) : String := (l.replace "_" "").replace "--" "–"

def asString : JVal → Option String
  | .str s => some s
  | _ => none

/-- GET /api/poem.  `pick` stands for the random index into the returned
array; a body that is not a non-empty array, an element without a string
array under `lines`, or a non-string line all end in the fallback. -/
def poemGET (u : Upstream) (pick : Nat) : JResp :=
  match u with
  | .netErr => ⟨500, poemFallback⟩
  | .resp ok body =>
    if !ok then ⟨500, poemFallback⟩
    else
      match body with
      | none => ⟨500, poemFallback⟩
      | some data =>
        match data with
        | .arr (x :: xs) =>
          let p := (x :: xs).getD (pick % (xs.length + 1)) .null
          match jsGetField p "lines" with
          | .error _ => ⟨500, poemFallback⟩
          | .ok none => ⟨500, poemFallback⟩
          | .ok (some (.arr ls)) =>
            match ls.mapM asString with
            | none => ⟨500, poemFallback⟩
            | some ss =>
              ⟨200, .obj (ofield "title" (getOr (jsGetField p "title"))
                ++ ofield "author" (getOr (jsGetField p "author"))
                ++ [("lines", .arr ((ss.map cleanLine).map .str))])⟩
          | .ok (some _) => ⟨500, poemFallback⟩
        | _ => ⟨500, poemFallback⟩

/-- Failure of the common fetch prelude: network rejection, non-2xx status,
or a body on which response.json() throws. -/
def upstreamFailed : Upstream → Bool
  | .netErr => true
  | .resp ok body => !ok || body.isNone

def comicUpstreamFailed : ComicUpstream → Bool
  | .netErr => true
  | .resp ok _ => !ok

/-- C6 counterexample: a syntactically valid JSON payload of the wrong shape
(an object without the `text` field) does NOT make the trivia-fact adapter
fall back — `data.text` is merely undefined, so the route answers 200 with
`{}` (the undefined field is dropped by JSON serialization) instead of 500
with its fixed fallback body. -/
theorem triviaFact_malformed_200 :
    triviaFactGET (.resp true (some (.obj []))) = ⟨200, .obj []⟩ ∧
    (⟨200, .obj []⟩ : JResp) ≠ ⟨500, triviaFactFallback⟩ := by
  refine ⟨rfl, fun h => ?_⟩
  simp only [JResp.mk.injEq] at h
  exact absurd h.1 (by norm_num)

/-- C6 (amended): when the upstream fetch itself fails — network rejection,
non-2xx status, or a body on which response.json() throws — every one of the
seven content adapters returns status 500 with its documented fixed fallback
value as the body, and never raises to its caller (each handler is a total
function). A syntactically valid JSON body of the wrong shape, however, is
only caught by the adapters whose extraction throws or type-checks
(dog-fact, activity, poem, comic); cat-fact, trivia-fact and joke answer 200
with an undefined/defective field in that case. -/
theorem adapters_fallback_on_failure :
    (∀ u : Upstream, upstreamFailed u = true →
      catFactGET u = ⟨500, catFactFallback⟩ ∧
      triviaFactGET u = ⟨500, triviaFactFallback⟩ ∧
      dogFactGET u = ⟨500, dogFactFallback⟩ ∧
      jokeGET u = ⟨500, jokeFallback⟩ ∧
      activityGET u = ⟨500, activityFallback⟩ ∧
      ∀ pick : Nat, poemGET u pick = ⟨500, poemFallback⟩) ∧
    (∀ cu : ComicUpstream, comicUpstreamFailed cu = true →
      ∀ nowMs : Int, ∀ srcIdx : Nat, comicGET cu nowMs srcIdx = comicFallbackResp) := by
  constructor
  · intro u hu
    match u with
    | .netErr => exact ⟨rfl, rfl, rfl, rfl, rfl, fun _ => rfl⟩
    | .resp ok body =>
      match ok, body with
      | false, _ => exact ⟨rfl, rfl, rfl, rfl, rfl, fun _ => rfl⟩
      | true, none => exact ⟨rfl, rfl, rfl, rfl, rfl, fun _ => rfl⟩
      | true, some _ => simp [upstreamFailed] at hu
  · intro cu hcu nowMs srcIdx
    match cu with
    | .netErr => rfl
    | .resp ok blocks =>
      match ok with
      | false => rfl
      | true => simp [comicUpstreamFailed] at hcu

/-- C6 witness: the fallback behaviour at concrete failing upstreams — a
network error for the seven JSON adapters (shown here for cat-fact, joke and
poem) and a non-2xx response for the comic route. -/
theorem adapters_fallback_on_failure_witness :
    catFactGET .netErr = ⟨500, catFactFallback⟩ ∧
    jokeGET (.resp false (some .null)) = ⟨500, jokeFallback⟩ ∧
    poemGET (.resp true none) 5 = ⟨500, poemFallback⟩ ∧
    comicGET (.resp false []) 1751500000000 2 = comicFallbackResp :=
  ⟨(adapters_fallback_on_failure.1 .netErr rfl).1,
   (adapters_fallback_on_failure.1 (.resp false (some .null)) rfl).2.2.2.1,
   (adapters_fallback_on_failure.1 (.resp true none) rfl).2.2.2.2.2 5,
   adapters_fallback_on_failure.2 (.resp false []) rfl 1751500000000 2⟩

/-! ## GET /api/latest-date (the handler in src/app/api/dog-fact/route.ts) -/

theorem uval_trans (a b c : UInt32) (h1 : a < b) (h2 : b < c) : a < c := by
  rw [UInt32.lt_def] at h1 h2 ⊢
  exact Nat.lt_trans h1 h2

theorem uval_asymm_eq (a b : UInt32) (h1 : ¬ (a < b)) (h2 : ¬ (b < a)) : a = b := by
  rw [UInt32.lt_def] at h1 h2
  have h1' : ¬ (a.toNat < b.toNat) := h1
  have h2' : ¬ (b.toNat < a.toNat) := h2
  exact UInt32.toNat.inj (by omega)

theorem charListLt_irrefl : ∀ l : List Char, charListLt l l = false := by
  intro l
  induction l with
  | nil => rfl
  | cons c cs ih =>
    show (if c.val < c.val then true else if c.val < c.val then false else charListLt cs cs)
        = false
    rw [if_neg (char_val_lt_irrefl c), if_neg (char_val_lt_irrefl c), ih]

theorem charListLt_trans : ∀ as bs cs : List Char, charListLt as bs = true →
    charListLt bs cs = true → charListLt as cs = true := by
  intro as
  induction as with
  | nil =>
    intro bs cs h1 h2
    match bs, cs with
    | [], _ => exact absurd h1 (by simp [charListLt])
    | _ :: _, [] => exact absurd h2 (by simp [charListLt])
    | _ :: _, _ :: _ => rfl
  | cons a as ih =>
    intro bs cs h1 h2
    match bs, cs with
    | [], _ => exact absurd h1 (by simp [charListLt])
    | _ :: _, [] => exact absurd h2 (by simp [charListLt])
    | b :: bs, c :: cs =>
      rw [show charListLt (a :: as) (b :: bs)
          = (if a.val < b.val then true else if b.val < a.val then false
             else charListLt as bs) from rfl] at h1
      rw [show charListLt (b :: bs) (c :: cs)
          = (if b.val < c.val then true else if c.val < b.val then false
             else charListLt bs cs) from rfl] at h2
      rw [show charListLt (a :: as) (c :: cs)
          = (if a.val < c.val then true else if c.val < a.val then false
             else charListLt as cs) from rfl]
      by_cases hab : a.val < b.val
      · by_cases hbc : b.val < c.val
        · rw [if_pos (uval_trans _ _ _ hab hbc)]
        · by_cases hcb : c.val < b.val
          · rw [if_neg hbc, if_pos hcb] at h2
            exact absurd h2 (by simp)
          · have hbceq := uval_asymm_eq _ _ hbc hcb
            rw [if_pos (hbceq ▸ hab)]
      · by_cases hba : b.val < a.val
        · rw [if_neg hab, if_pos hba] at h1
          exact absurd h1 (by simp)
        · have habeq := uval_asymm_eq _ _ hab hba
          rw [if_neg hab, if_neg hba] at h1
          by_cases hbc : b.val < c.val
          · rw [if_pos (habeq ▸ hbc)]
          · by_cases hcb : c.val < b.val
            · rw [if_neg hbc, if_pos hcb] at h2
              exact absurd h2 (by simp)
            · have hbceq := uval_asymm_eq _ _ hbc hcb
              rw [if_neg hbc, if_neg hcb] at h2
              rw [if_neg (habeq ▸ hbc), if_neg (show ¬ (c.val < a.val) from habeq ▸ hcb)]
              exact ih bs cs h1 h2

theorem charListLt_total : ∀ as bs : List Char, charListLt as bs = false →
    as = bs ∨ charListLt bs as = true := by
  intro as
  induction as with
  | nil =>
    intro bs h
    match bs with
    | [] => exact Or.inl rfl
    | b :: bs => exact absurd h (by simp [charListLt])
  | cons a as ih =>
    intro bs h
    match bs with
    | [] => exact Or.inr rfl
    | b :: bs =>
      rw [show charListLt (a :: as) (b :: bs)
          = (if a.val < b.val then true else if b.val < a.val then false
             else charListLt as bs) from rfl] at h
      by_cases hab : a.val < b.val
      · rw [if_pos hab] at h
        exact absurd h (by simp)
      · by_cases hba : b.val < a.val
        · refine Or.inr ?_
          rw [show charListLt (b :: bs) (a :: as)
              = (if b.val < a.val then true else if a.val < b.val then false
                 else charListLt bs as) from rfl, if_pos hba]
        · rw [if_neg hab, if_neg hba] at h
          have hv := uval_asymm_eq _ _ hab hba
          have hc : a = b := Char.ext hv
          rcases ih bs h with he | hlt
          · exact Or.inl (by rw [hc, he])
          · refine Or.inr ?_
            rw [show charListLt (b :: bs) (a :: as)
                = (if b.val < a.val then true else if a.val < b.val then false
                   else charListLt bs as) from rfl, if_neg hba, if_neg hab]
            exact hlt

theorem strLt_trans (a b c : String) (h1 : strLt a b = true) (h2 : strLt b c = true) :
    strLt a c = true := charListLt_trans _ _ _ h1 h2

theorem strLt_irrefl (a : String) : strLt a a = false := charListLt_irrefl _

theorem strLt_total (a b : String) (h : strLt a b = false) : a = b ∨ strLt b a = true := by
  rcases charListLt_total _ _ h with he | hlt
  · exact Or.inl (by
      cases a; cases b
      simp only at he
      rw [he])
  · exact Or.inr hlt

def latestStep (acc : Option String) (s : String) : Option String :=
  match acc with
  | none => some s
  | some m => if strLt m s then some s else some m

def maxStr (xs : List String) : Option String := xs.foldl latestStep none

theorem latestStep_ne_none (a : String) (x : String) : latestStep (some a) x ≠ none := by
  show (if strLt a x then some x else some a) ≠ none
  split <;> simp

theorem fold_ne_none : ∀ (xs : List String) (a : String),
    xs.foldl latestStep (some a) ≠ none := by
  intro xs
  induction xs with
  | nil => intro a h; exact absurd h (by simp)
  | cons x xs ih =>
    intro a
    show List.foldl latestStep (latestStep (some a) x) xs ≠ none
    rcases hs : latestStep (some a) x with _ | b
    · exact absurd hs (latestStep_ne_none a x)
    · exact ih b

theorem fold_mem : ∀ (xs : List String) (acc : Option String) (m : String),
    xs.foldl latestStep acc = some m → acc = some m ∨ m ∈ xs := by
  intro xs
  induction xs with
  | nil => intro acc m h; exact Or.inl h
  | cons x xs ih =>
    intro acc m h
    rw [show List.foldl latestStep acc (x :: xs)
        = List.foldl latestStep (latestStep acc x) xs from rfl] at h
    rcases ih _ m h with hs | hm
    · rcases acc with _ | a
      · rw [show latestStep none x = some x from rfl] at hs
        exact Or.inr (by rw [← Option.some.inj hs]; exact List.mem_cons_self x xs)
      · rw [show latestStep (some a) x = (if strLt a x then some x else some a) from rfl] at hs
        by_cases hax : strLt a x = true
        · rw [if_pos hax] at hs
          exact Or.inr (by rw [← Option.some.inj hs]; exact List.mem_cons_self x xs)
        · rw [if_neg hax] at hs
          exact Or.inl hs
    · exact Or.inr (List.mem_cons_of_mem x hm)

theorem fold_ub : ∀ (xs : List String) (acc : Option String) (m : String),
    xs.foldl latestStep acc = some m →
    (∀ a, acc = some a → strLt m a = false) ∧ ∀ s ∈ xs, strLt m s = false := by
  intro xs
  induction xs with
  | nil =>
    intro acc m h
    refine ⟨fun a ha => ?_, fun s hs => absurd hs (by simp)⟩
    rw [show List.foldl latestStep acc [] = acc from rfl] at h
    rw [h] at ha
    rw [← Option.some.inj ha]
    exact strLt_irrefl m
  | cons x xs ih =>
    intro acc m h
    rw [show List.foldl latestStep acc (x :: xs)
        = List.foldl latestStep (latestStep acc x) xs from rfl] at h
    obtain ⟨hacc, hxs⟩ := ih _ m h
    have hmx : strLt m x = false := by
      rcases acc with _ | a
      · exact hacc x rfl
      · rw [show latestStep (some a) x = (if strLt a x then some x else some a) from rfl] at hacc
        by_cases hax : strLt a x = true
        · exact hacc x (by rw [if_pos hax])
        · have hma : strLt m a = false := hacc a (by rw [if_neg hax])
          by_cases hmxb : strLt m x = true
          · rcases strLt_total a x (eq_false_of_ne_true hax) with he | hlt
            · rw [← he] at hmxb
              exact absurd hmxb (ne_true_of_eq_false hma)
            · exact absurd (strLt_trans m x a hmxb hlt) (ne_true_of_eq_false hma)
          · exact eq_false_of_ne_true hmxb
    refine ⟨fun a ha => ?_, fun s hs => ?_⟩
    · rcases acc with _ | a'
      · exact absurd ha (by simp)
      · have ha' : a' = a := by
          have := Option.some.inj ha; exact this
        rw [show latestStep (some a') x
            = (if strLt a' x then some x else some a') from rfl] at hacc
        by_cases hax : strLt a' x = true
        · subst ha'
          by_cases hmab : strLt m a' = true
          · exact absurd (strLt_trans m a' x hmab (by simpa using hax))
              (ne_true_of_eq_false hmx)
          · exact eq_false_of_ne_true hmab
        · exact ha' ▸ hacc a' (by rw [if_neg hax])
    · rcases List.mem_cons.mp hs with he | hm
      · rw [he]; exact hmx
      · exact hxs s hm

/-- Model of GET /api/latest-date: the Mongo query
`findOne({date: {$lt: todayIST}}).sort({date: -1})` returns the greatest
stored date string strictly below today's IST date; an empty result or a
thrown database error (`dbOk = false`) falls back to yesterday's IST date. -/
def latestDateGET (nowMs : Int) (dbOk : Bool) (store : List Edition) : String :=
  if !dbOk then getISTDateStringOfMs (nowMs - 86400000)
  else
    match maxStr ((store.filter
        (fun e => strLt e.date (getISTDateStringOfMs nowMs))).map (fun e => e.date)) with
    | some d => d
    | none => getISTDateStringOfMs (nowMs - 86400000)

theorem maxStr_cons_ne_none (x : String) (xs : List String) : maxStr (x :: xs) ≠ none :=
  fold_ne_none xs x

/-- C7: the latest-date endpoint always answers with a date string strictly
below today's canonical IST date (in the string order shared by ECMAScript
and MongoDB) — never today's date, even when today's Edition exists; on a
database failure it answers yesterday's IST date; on an empty store it
answers yesterday's IST date; and whenever the store holds an Edition dated
before today, the answer is the greatest such stored date. -/
theorem latest_date_strictly_before (nowMs : Int) (dbOk : Bool) (store : List Edition)
    (hnow : 0 ≤ nowMs ∧ nowMs ≤ 250000000000000) :
    strLt (latestDateGET nowMs dbOk store) (getISTDateStringOfMs nowMs) = true ∧
    (dbOk = false → latestDateGET nowMs dbOk store = getISTDateStringOfMs (nowMs - 86400000)) ∧
    (store = [] → latestDateGET nowMs dbOk store = getISTDateStringOfMs (nowMs - 86400000)) ∧
    (dbOk = true → ∀ e ∈ store, strLt e.date (getISTDateStringOfMs nowMs) = true →
      (∃ e' ∈ store, e'.date = latestDateGET nowMs dbOk store) ∧
      strLt (latestDateGET nowMs dbOk store) e.date = false) := by
  have hyest : strLt (getISTDateStringOfMs (nowMs - 86400000))
      (getISTDateStringOfMs nowMs) = true := by
    unfold getISTDateStringOfMs toISODateStringOfMs
    rw [show (nowMs - 86400000 + 19800000) / 86400000
        = (nowMs + 19800000) / 86400000 - 1 from by omega]
    exact format_pred_lt ((nowMs + 19800000) / 86400000) (by omega)
  cases dbOk with
  | false =>
    exact ⟨hyest, fun _ => rfl, fun _ => rfl, fun h => absurd h (by simp)⟩
  | true =>
    have hred : latestDateGET nowMs true store
        = match maxStr ((store.filter
            (fun e => strLt e.date (getISTDateStringOfMs nowMs))).map (fun e => e.date)) with
          | some d => d
          | none => getISTDateStringOfMs (nowMs - 86400000) := rfl
    rcases hD : maxStr ((store.filter
        (fun e => strLt e.date (getISTDateStringOfMs nowMs))).map (fun e => e.date))
      with _ | d
    · have hy : latestDateGET nowMs true store = getISTDateStringOfMs (nowMs - 86400000) := by
        rw [hred, hD]
      refine ⟨by rw [hy]; exact hyest, fun h => absurd h (by simp), fun _ => hy,
        fun _ e he hlt => ?_⟩
      have hfil : e ∈ store.filter (fun e => strLt e.date (getISTDateStringOfMs nowMs)) :=
        List.mem_filter.mpr ⟨he, hlt⟩
      have hmap : e.date ∈ (store.filter
          (fun e => strLt e.date (getISTDateStringOfMs nowMs))).map (fun e => e.date) :=
        List.mem_map.mpr ⟨e, hfil, rfl⟩
      rcases hl : (store.filter
          (fun e => strLt e.date (getISTDateStringOfMs nowMs))).map (fun e => e.date)
        with _ | ⟨y, ys⟩
      · rw [hl] at hmap
        exact absurd hmap (by simp)
      · rw [hl] at hD
        exact absurd hD (maxStr_cons_ne_none y ys)
    · have hsome : latestDateGET nowMs true store = d := by
        rw [hred, hD]
      have hmem := fold_mem _ none d hD
      rcases hmem with habs | hmemd
      · exact absurd habs (by simp)
      · obtain ⟨e', he'f, he'd⟩ := List.mem_map.mp hmemd
        have he's : e' ∈ store := (List.mem_filter.mp he'f).1
        have hlt' : strLt e'.date (getISTDateStringOfMs nowMs) = true :=
          (List.mem_filter.mp he'f).2
        have hub := (fold_ub _ none d hD).2
        refine ⟨by rw [hsome, ← he'd]; exact hlt', fun h => absurd h (by simp),
          fun h => ?_, fun _ e he hlt => ?_⟩
        · subst h
          exact Option.noConfusion (show (none : Option String) = some d from hD)
        · have hfil : e ∈ store.filter (fun e => strLt e.date (getISTDateStringOfMs nowMs)) :=
            List.mem_filter.mpr ⟨he, hlt⟩
          have hmap : e.date ∈ (store.filter
              (fun e => strLt e.date (getISTDateStringOfMs nowMs))).map (fun e => e.date) :=
            List.mem_map.mpr ⟨e, hfil, rfl⟩
          exact ⟨⟨e', he's, he'd.trans hsome.symm⟩, by rw [hsome]; exact hub e.date hmap⟩

/-- C7 witness: a concrete database failure at an instant in 2025 falls back
to yesterday's IST date, which the theorem shows is strictly below today's. -/
theorem latest_date_strictly_before_witness :
    strLt (latestDateGET 1751500000000 false []) (getISTDateStringOfMs 1751500000000) = true ∧
    latestDateGET 1751500000000 false [] = getISTDateStringOfMs (1751500000000 - 86400000) :=
  ⟨(latest_date_strictly_before 1751500000000 false [] (by decide)).1,
   (latest_date_strictly_before 1751500000000 false [] (by decide)).2.1 rfl⟩

/-! ## GET /api/calendar (src/app/api/calendar/route.ts) -/

/-- The base64 alphabet used by `Buffer.prototype.toString("base64")`. -/
def base64Alphabet : List Char :=
  "ABCDEFGHIJKLMNOPQRSTUVWXYZabcdefghijklmnopqrstuvwxyz0123456789+/".data

def b64c (n : Nat) : Char := base64Alphabet.getD n 'A'

/-- RFC 4648 base64 of a byte list, as produced by `buf.toString("base64")`. -/
def base64Encode : List Nat → List Char
  | [] => []
  | [a] =>
    let n := (a % 256) * 65536
    [b64c (n / 262144 % 64), b64c (n / 4096 % 64), '=', '=']
  | [a, b] =>
    let n := (a % 256) * 65536 + (b % 256) * 256
    [b64c (n / 262144 % 64), b64c (n / 4096 % 64), b64c (n / 64 % 64), '=']
  | a :: b :: c :: rest =>
    let n := (a % 256) * 65536 + (b % 256) * 256 + c % 256
    b64c (n / 262144 % 64) :: b64c (n / 4096 % 64) :: b64c (n / 64 % 64) :: b64c (n % 64)
      :: base64Encode rest

/-- The inline `data:` URL the calendar builds from a stored photo blob. -/
def dataUrl (blob : List Nat) : String :=
  "data:image/jpeg;base64," ++ String.mk (base64Encode blob)

/-- One day's value in the calendar response:
`{ headline?, imageUrl: string | null, label }`. -/
structure CalEntry where
  headline : Option String
  imageUrl : Option String
  label : String
deriving DecidableEq

/-- The calendar route's outcome: 400 for a missing/invalid year or month,
or the `{year, month, data}` payload. -/
inductive CalRes where
  | badRequest
  | ok (year month : Int) (data : List (String × CalEntry))
deriving DecidableEq

/-- The route's is-in-the-future test against the current IST civil date. -/
def isFutureDay (y m day : Int) (ist : Int × Int × Int) : Bool :=
  decide (y > ist.1 ∨ (y = ist.1 ∧ m > ist.2.1) ∨ (y = ist.1 ∧ m = ist.2.1 ∧ day > ist.2.2))

/-- One iteration of the per-day loop.  The key template
`yearNum-MM-DD` (month and day zero-padded by padStart, the year printed as
is) coincides with the four-digit zero-padded `formatISODate` exactly for
the years 1000-9999 considered by the C9 theorem.  A future day is marked
unavailable without touching the store; otherwise the date string is
IST-normalized (a throwing normalization is caught and marks the day
unavailable, as does a missing document); a found document yields the data
URL of its photo blob (a stored Buffer is always truthy; the photo schema
has no imageUrl field, so the `|| null` alternative never fires on a found
document) and its photo label with the date string as falsy-fallback. -/
def calendarDay (y m day : Int) (ist : Int × Int × Int) (store : List Edition) :
    String × CalEntry :=
  let dateString := formatISODate y m day
  if isFutureDay y m day ist then (dateString, ⟨none, none, dateString⟩)
  else
    match getISTDateStringOfInput dateString with
    | none => (dateString, ⟨none, none, dateString⟩)
    | some nd =>
      match findOneByDate store nd with
      | none => (dateString, ⟨none, none, dateString⟩)
      | some e =>
        (dateString, ⟨some e.headline, some (dataUrl e.photo.imageBlob),
          if e.photo.label = "" then dateString else e.photo.label⟩)

/-- Model of GET /api/calendar for present, numeric `year` and `month`
parameters: month out of 1-12 is rejected with 400; otherwise one entry per
day of the month (`new Date(yearNum, monthNum, 0).getDate()` days), each
produced by `calendarDay` against the current IST civil date. -/
def calendarGET (yearNum monthNum nowMs : Int) (store : List Edition) : CalRes :=
  if monthNum < 1 ∨ monthNum > 12 then .badRequest
  else
    .ok yearNum monthNum ((List.range (daysInMonth yearNum monthNum).toNat).map
      (fun (i : Nat) => calendarDay yearNum monthNum ((i : Int) + 1)
        (civilFromDays ((nowMs + 19800000) / 86400000)) store))

/-- C9: for a valid request (month 1-12, four-digit year) the response holds
exactly one entry per day of the month, keyed by the day's date string; every
day strictly after the current IST date is unavailable (null imageUrl)
regardless of store contents; and any entry with a non-null imageUrl is a
non-future day whose normalized date has a stored Edition, its imageUrl
being that Edition's photo data URL. -/
theorem calendar_month_entries (y m nowMs : Int) (store : List Edition)
    (hy : 1000 ≤ y ∧ y ≤ 9999) (hm : 1 ≤ m ∧ m ≤ 12) :
    ∃ data, calendarGET y m nowMs store = .ok y m data ∧
      data.length = (daysInMonth y m).toNat ∧
      ∀ i : Nat, ∀ hi : i < data.length,
        (data.get ⟨i, hi⟩).1 = formatISODate y m ((i : Int) + 1) ∧
        (isFutureDay y m ((i : Int) + 1) (civilFromDays ((nowMs + 19800000) / 86400000)) = true →
          (data.get ⟨i, hi⟩).2.imageUrl = none) ∧
        ((data.get ⟨i, hi⟩).2.imageUrl ≠ none →
          isFutureDay y m ((i : Int) + 1) (civilFromDays ((nowMs + 19800000) / 86400000)) = false ∧
          ∃ e, (∃ nd, getISTDateStringOfInput (formatISODate y m ((i : Int) + 1)) = some nd ∧
              findOneByDate store nd = some e) ∧
            (data.get ⟨i, hi⟩).2.imageUrl = some (dataUrl e.photo.imageBlob)) := by
  have hnot : ¬ (m < 1 ∨ m > 12) := by omega
  refine ⟨(List.range (daysInMonth y m).toNat).map
      (fun (i : Nat) => calendarDay y m ((i : Int) + 1)
        (civilFromDays ((nowMs + 19800000) / 86400000)) store), ?_, ?_, ?_⟩
  · show (if m < 1 ∨ m > 12 then CalRes.badRequest else _) = _
    rw [if_neg hnot]
  · rw [List.length_map, List.length_range]
  · intro i hi
    have hlen : i < (List.range (daysInMonth y m).toNat).length := by
      rw [List.length_map] at hi
      exact hi
    have hget : (((List.range (daysInMonth y m).toNat).map
        (fun (i : Nat) => calendarDay y m ((i : Int) + 1)
          (civilFromDays ((nowMs + 19800000) / 86400000)) store)).get ⟨i, hi⟩)
        = calendarDay y m ((i : Int) + 1)
          (civilFromDays ((nowMs + 19800000) / 86400000)) store := by
      rw [List.get_eq_getElem, List.getElem_map, List.getElem_range]
    rw [hget]
    set ist := civilFromDays ((nowMs + 19800000) / 86400000) with hist
    by_cases hf : isFutureDay y m ((i : Int) + 1) ist = true
    · have hday : calendarDay y m ((i : Int) + 1) ist store
          = (formatISODate y m ((i : Int) + 1),
             ⟨none, none, formatISODate y m ((i : Int) + 1)⟩) := by
        unfold calendarDay
        rw [if_pos hf]
      rw [hday]
      exact ⟨rfl, fun _ => rfl, fun hne => absurd rfl hne⟩
    · rcases hn : getISTDateStringOfInput (formatISODate y m ((i : Int) + 1)) with _ | nd
      · have hday : calendarDay y m ((i : Int) + 1) ist store
            = (formatISODate y m ((i : Int) + 1),
               ⟨none, none, formatISODate y m ((i : Int) + 1)⟩) := by
          unfold calendarDay
          rw [if_neg hf]
          simp only [hn]
        rw [hday]
        exact ⟨rfl, fun _ => rfl, fun hne => absurd rfl hne⟩
      · rcases hfo : findOneByDate store nd with _ | e
        · have hday : calendarDay y m ((i : Int) + 1) ist store
              = (formatISODate y m ((i : Int) + 1),
                 ⟨none, none, formatISODate y m ((i : Int) + 1)⟩) := by
            unfold calendarDay
            rw [if_neg hf]
            simp only [hn, hfo]
          rw [hday]
          exact ⟨rfl, fun _ => rfl, fun hne => absurd rfl hne⟩
        · have hday : calendarDay y m ((i : Int) + 1) ist store
              = (formatISODate y m ((i : Int) + 1),
                 ⟨some e.headline, some (dataUrl e.photo.imageBlob),
                  if e.photo.label = "" then formatISODate y m ((i : Int) + 1)
                  else e.photo.label⟩) := by
            unfold calendarDay
            rw [if_neg hf]
            simp only [hn, hfo]
          rw [hday]
          refine ⟨rfl, fun hfut => absurd hfut hf, fun _ =>
            ⟨eq_false_of_ne_true hf, e, ⟨nd, rfl, hfo⟩, rfl⟩⟩

/-- C9 witness: February 2025 against a mocked now of Feb 15, 2025 (IST) and
an empty store — 28 entries, every one of which the theorem constrains. -/
theorem calendar_month_entries_witness :
    ∃ data, calendarGET 2025 2 1739600000000 [] = .ok 2025 2 data ∧
      data.length = (daysInMonth 2025 2).toNat ∧
      ∀ i : Nat, ∀ hi : i < data.length,
        (data.get ⟨i, hi⟩).1 = formatISODate 2025 2 ((i : Int) + 1) ∧
        (isFutureDay 2025 2 ((i : Int) + 1)
            (civilFromDays ((1739600000000 + 19800000) / 86400000)) = true →
          (data.get ⟨i, hi⟩).2.imageUrl = none) ∧
        ((data.get ⟨i, hi⟩).2.imageUrl ≠ none →
          isFutureDay 2025 2 ((i : Int) + 1)
            (civilFromDays ((1739600000000 + 19800000) / 86400000)) = false ∧
          ∃ e, (∃ nd, getISTDateStringOfInput (formatISODate 2025 2 ((i : Int) + 1)) = some nd ∧
              findOneByDate [] nd = some e) ∧
            (data.get ⟨i, hi⟩).2.imageUrl = some (dataUrl e.photo.imageBlob)) :=
  calendar_month_entries 2025 2 1739600000000 [] (by decide) (by decide)
